import Mathlib

/-!
Verification of the gmaildownloader core against its specification.

The Python sources are shallowly embedded:
* numbers handled by Python `decimal.Decimal` / `float` are modelled as exact
  rationals (`ℚ`); every concrete value exercised below is exactly
  representable in both;
* timestamps (`datetime` instants) are modelled as integers on a single
  common timeline (the repository compares instants only through `<`/`>`
  and min/max, and all fills of a group share one `tzinfo`, so a fixed
  linear timeline is faithful for the properties proved here);
* CSV rows are records of the string fields the code reads, with the
  numeric columns carried as their parsed values (`Option ℚ` / `Option ℤ`,
  `none` meaning the column was absent, empty or unparseable — mirroring
  the `try/except` defaults around `float()`/`int()` in the source);
* fallible Python operations are `Option`/`Except`.
-/

namespace GmailDL

/-! ### Kernel-computable rational arithmetic

The standard `ℚ` operations of the library do not reduce inside the
kernel, so the embedded code uses the following equivalent operations,
all built on `Rat.divInt` (which does reduce); the bridge lemmas proved
in the theorem section below rewrite them back to `+`, `*`, `/`, `<`, `⌊⌋`
for the algebraic arguments. -/

/-- The rational `n/1`. -/
def intQ (n : ℤ) : ℚ := Rat.divInt n 1

/-- Addition on `ℚ`. -/
def qadd (a b : ℚ) : ℚ :=
  Rat.divInt (a.num * b.den + b.num * a.den) (a.den * b.den)

/-- Negation on `ℚ`. -/
def qneg (a : ℚ) : ℚ := Rat.divInt (-a.num) a.den

/-- Subtraction on `ℚ`. -/
def qsub (a b : ℚ) : ℚ := qadd a (qneg b)

/-- Multiplication on `ℚ`. -/
def qmul (a b : ℚ) : ℚ := Rat.divInt (a.num * b.num) (a.den * b.den)

/-- Division on `ℚ` (0 on a zero divisor, like `/`). -/
def qdiv (a b : ℚ) : ℚ := Rat.divInt (a.num * b.den) (a.den * b.num)

/-- The strict order on `ℚ`, as a Boolean. -/
def qlt (a b : ℚ) : Bool := a.num * b.den < b.num * a.den

/-- The order on `ℚ`, as a Boolean. -/
def qle (a b : ℚ) : Bool := a.num * b.den ≤ b.num * a.den

/-- Absolute value on `ℚ`. -/
def qabs (a : ℚ) : ℚ := Rat.divInt |a.num| a.den

/-- Floor of a rational (the denominator is positive, so flooring integer
division of the numerator by the denominator). -/
def qfloor (a : ℚ) : ℤ := Int.fdiv a.num a.den

/-- The rational `10 ^ k`. -/
def qpow10 (k : Nat) : ℚ := Rat.divInt ((10 : ℤ) ^ k) 1

/-- Python `decimal.Decimal.quantize(..., rounding=ROUND_HALF_UP)` to `k`
fractional digits: round to nearest, ties away from zero. -/
def roundHalfUp (k : Nat) (q : ℚ) : ℚ :=
  let s : ℚ := qpow10 k
  if qle 0 q then qdiv (intQ (qfloor (qadd (qmul q s) (Rat.divInt 1 2)))) s
  else qneg (qdiv (intQ (qfloor (qadd (qmul (qneg q) s) (Rat.divInt 1 2)))) s)

/-- Python `decimal.Decimal.quantize(...)` with the default context rounding
(`ROUND_HALF_EVEN`) to `k` fractional digits. -/
def roundHalfEven (k : Nat) (q : ℚ) : ℚ :=
  let s : ℚ := qpow10 k
  let x := qmul q s
  let fl : ℤ := qfloor x
  let frac := qsub x (intQ fl)
  let r : ℤ :=
    if qlt frac (Rat.divInt 1 2) then fl
    else if qlt (Rat.divInt 1 2) frac then fl + 1
    else if fl % 2 = 0 then fl else fl + 1
  qdiv (intQ r) s

/-! ### Proleptic Gregorian calendar (Python `datetime.date`)

`date.weekday()` returns Monday = 0 … Sunday = 6; day 0001-01-01 of the
proleptic Gregorian calendar is a Monday. -/

/-- ASCII-lowercasing of a string, character by character (the subjects and
CSV cells handled by the repository are ASCII, where this agrees with
Python `str.lower()`). -/
def strLower (s : String) : String := String.mk (s.data.map Char.toLower)

/-- ASCII-uppercasing of a string (Python `str.upper()` on ASCII text). -/
def strUpper (s : String) : String := String.mk (s.data.map Char.toUpper)

/-- Python `str.startswith`. -/
def strStartsWith (s p : String) : Bool := p.data.isPrefixOf s.data

/-- Split a character list at every occurrence of `sep`
(Python `str.split(sep)` for a one-character separator). -/
def listSplitOn (sep : Char) (cs : List Char) : List (List Char) :=
  cs.foldr
    (fun c acc =>
      if c = sep then [] :: acc
      else
        match acc with
        | h :: t => (c :: h) :: t
        | [] => [[c]])
    [[]]

/-- The ASCII digit test (the `\d` class and `str.isdigit` on ASCII). -/
def isDigitChar (c : Char) : Bool := 48 ≤ c.toNat && c.toNat ≤ 57

/-- Numeric value of a digit string (what `int(s)` returns on the all-digit
strings the callers below guard for). -/
def digitsVal (cs : List Char) : Nat :=
  cs.foldl (fun n c => n * 10 + (c.toNat - 48)) 0

/-- Gregorian leap year test (`calendar.isleap`). -/
def isLeap (y : Nat) : Bool := y % 4 = 0 && (y % 100 ≠ 0 || y % 400 = 0)

/-- Number of days in month `m` (1–12) of year `y`; 0 for an invalid month
number (a `datetime.date` constructor call with such a month raises, which
callers model separately). -/
def daysInMonth (y m : Nat) : Nat :=
  match m with
  | 1 => 31
  | 2 => if isLeap y then 29 else 28
  | 3 => 31
  | 4 => 30
  | 5 => 31
  | 6 => 30
  | 7 => 31
  | 8 => 31
  | 9 => 30
  | 10 => 31
  | 11 => 30
  | 12 => 31
  | _ => 0

/-- Days in months `1..m` of year `y` (helper for the day number). -/
def daysBeforeMonth (y : Nat) : Nat → Nat
  | 0 => 0
  | m + 1 => daysBeforeMonth y m + daysInMonth y (m + 1)

/-- Rata-die day number of `y-m-d` in the proleptic Gregorian calendar:
0001-01-01 has day number 1 (this is CPython's `date.toordinal`). -/
def dayNumber (y m d : Nat) : Nat :=
  365 * (y - 1) + (y - 1) / 4 - (y - 1) / 100 + (y - 1) / 400
    + daysBeforeMonth y (m - 1) + d

/-- Python `date(y, m, d).weekday()`: Monday = 0 … Sunday = 6. -/
def weekdayOf (y m d : Nat) : Nat := (dayNumber y m d - 1) % 7

/-- Instants (`datetime` values of one shared timezone) as seconds on a
linear timeline; only their order matters to the embedded code. -/
abbrev Instant := ℤ

/-- The instant `datetime.combine(date, time(23, 59, 59), tzinfo)` used for
synthetic-expiration cutoffs, on the shared timeline. -/
def eodInstant (y m d : Nat) : Instant := (dayNumber y m d : ℤ) * 86400 + 86399

/-- Parse of `datetime.fromisoformat(s).date()` for a plain `YYYY-MM-DD`
string (the only shape the repository writes into `expiry_date`): the year,
month, day triple, or `none` when the text is not a valid date (the Python
call raises there, and the caller catches it). -/
def isoDate? (s : String) : Option (Nat × Nat × Nat) :=
  match listSplitOn '-' s.data with
  | [ys, ms, ds] =>
    if ys.length = 4 && ms.length = 2 && ds.length = 2
        && ys.all Char.isDigit && ms.all Char.isDigit && ds.all isDigitChar then
      let y := digitsVal ys
      let m := digitsVal ms
      let d := digitsVal ds
      if 1 ≤ m && m ≤ 12 && 1 ≤ d && d ≤ daysInMonth y m && 1 ≤ y then
        some (y, m, d)
      else none
    else none
  | _ => none

/-- The unsigned part of a Python `float` decimal literal: digits with an
optional fractional part (`"12"`, `"12.5"`, `".5"`). -/
def pyFloatCore (t : List Char) : Option ℚ :=
  match t.span isDigitChar with
  | (intPart, rest) =>
    match rest with
    | [] =>
      if intPart = [] then none
      else some (intQ (digitsVal intPart))
    | '.' :: fracPart =>
      if fracPart.all isDigitChar && (intPart ≠ [] || fracPart ≠ []) then
        some (Rat.divInt
          ((digitsVal intPart : ℤ) * (10 : ℤ) ^ fracPart.length
            + (digitsVal fracPart : ℤ))
          ((10 : ℤ) ^ fracPart.length))
      else none
    | _ => none

/-- Parse of Python `float(s)` restricted to plain decimal literals
(optional sign, digits, optional fractional part), the only shapes the
repository feeds it outside a `try`. -/
def pyFloat? (s : String) : Option ℚ :=
  match s.data with
  | [] => none
  | c :: t =>
    if c = '+' then pyFloatCore t
    else if c = '-' then (pyFloatCore t).map qneg
    else pyFloatCore (c :: t)

end GmailDL

namespace BuildRoundTrips

open GmailDL

/-- One CSV row as read by `build_round_trips.main` (`csv.DictReader` row).
String columns are kept as strings; numeric columns carry their parsed
value, `none` standing for an absent/empty/unparseable cell, which is what
the surrounding `if row.get(...)`/`try ... except` defaults test for. -/
structure Row where
  message_id : String
  trade_id : String
  side : String
  parse_ok : String
  account : String
  symbol : String
  is_option : String
  expiry_date : String
  strike : String
  option_type : String
  fut_root_symbol : String
  contract_multiplier : Option ℚ
  qty_signed : Option ℤ
  qty_abs : Option ℤ
  price : Option ℚ
  date_iso : Instant
  underlying_mark : Option ℚ
  impl_vol : Option ℚ
  subject : Option String
deriving DecidableEq, Repr

/-- Python truthiness test `row.get(...) or None` for a string cell. -/
def orNone (s : String) : Option String := if s = "" then none else some s

/-- `row.get("parse_ok", "").lower() in ("true", "1", "t", "yes", "y")`. -/
def truthyParse (s : String) : Bool :=
  ["true", "1", "t", "yes", "y"].contains (strLower s)

/-- `row.get("is_option", "").lower() in ("true", "1", "t", "yes", "y")`. -/
def truthyBool (s : String) : Bool :=
  ["true", "1", "t", "yes", "y"].contains (strLower s)

/-- `vwap` (build_round_trips.py lines 30–33): `None` on zero quantity,
otherwise value/qty quantized to 6 digits, `ROUND_HALF_UP`. -/
def vwap (total_qty : ℤ) (total_value : ℚ) : Option ℚ :=
  if total_qty = 0 then none
  else some (roundHalfUp 6 (qdiv total_value (intQ total_qty)))

/-- `normalize_multiplier` (build_round_trips.py lines 40–46). -/
def normalize_multiplier (symbol : String) (fut_root_symbol : Option String)
    (cm : ℚ) : ℚ :=
  if fut_root_symbol = some "/ES" then 50
  else if symbol = "SPX" || symbol = "SPY" then 100
  else cm

/-- The contract multiplier a row contributes before correction:
`float(row["contract_multiplier"]) if row.get("contract_multiplier") else 1.0`
with `except: cm = 1.0`. -/
def rowRawCm (r : Row) : ℚ := r.contract_multiplier.getD 1

/-- The corrected multiplier of a row (line 86). -/
def rowCm (r : Row) : ℚ :=
  normalize_multiplier r.symbol (orNone r.fut_root_symbol) (rowRawCm r)

/-- `qty_signed = int(row["qty_signed"]) if row.get("qty_signed") else 0`. -/
def rowQtySigned (r : Row) : ℤ := r.qty_signed.getD 0

/-- `qty_abs = int(row["qty_abs"]) if row.get("qty_abs") else abs(qty_signed)`. -/
def rowQtyAbs (r : Row) : ℤ :=
  match r.qty_abs with
  | some q => q
  | none => |rowQtySigned r|

/-- `price = D(row["price"]) if row.get("price") else D(0)`. -/
def rowPrice (r : Row) : ℚ := r.price.getD 0

/-- The grouping key (build_round_trips.py lines 94–102).  The source keys
on `str(cm)` and `str(is_option)`; equal floats stringify equally and
distinct floats distinctly, so the key carries the values themselves. -/
structure AggKey where
  account : String
  symbol : String
  cm : ℚ
  is_option : Bool
  expiry_date : String
  strike : String
  option_type : String
deriving DecidableEq, Repr

/-- The key built for a row (lines 94–102; the `or ""` defaults). -/
def keyOf (r : Row) : AggKey :=
  { account := r.account
    symbol := r.symbol
    cm := rowCm r
    is_option := truthyBool r.is_option
    expiry_date := ((orNone r.expiry_date).getD "")
    strike := ((orNone r.strike).getD "")
    option_type := ((orNone r.option_type).getD "") }

/-- One stored leg dict (build_round_trips.py lines 114–126 and 161–173). -/
structure Leg where
  message_id : Option String
  trade_id : String
  side : String
  qty : ℤ
  price : ℚ
  cashflow_per_unit : ℚ
  contract_multiplier : ℚ
  underlying_mark : Option ℚ
  impl_vol : Option ℚ
  dt : Instant
  subject : Option String
deriving DecidableEq, Repr

/-- The leg dict built for an accepted row (lines 114–126). -/
def legOfRow (r : Row) : Leg :=
  { message_id := some r.message_id
    trade_id := r.trade_id
    side := r.side
    qty := rowQtyAbs r
    price := rowPrice r
    cashflow_per_unit :=
      qmul (qmul (rowPrice r) (rowCm r))
        (if r.side = "SELL" then intQ 1 else intQ (-1))
    contract_multiplier := rowCm r
    underlying_mark := r.underlying_mark
    impl_vol := r.impl_vol
    dt := r.date_iso
    subject := r.subject }

/-- The per-key accumulator dict (build_round_trips.py lines 49–65).
`tzinfo` is not represented: the model works on one shared timeline. -/
structure G where
  legs : List Leg
  qty_buy : ℤ
  qty_sell : ℤ
  buy_value : ℚ
  sell_value : ℚ
  cashflow : ℚ
  min_dt : Option Instant
  max_dt : Option Instant
  any_expiry : Option String
  any_symbol : Option String
  any_option_type : Option String
  any_account : Option String
  any_multiplier : Option ℚ
  is_option : Option Bool
deriving DecidableEq, Repr

/-- The fresh accumulator a `defaultdict` access creates (lines 49–65). -/
def emptyG : G :=
  { legs := []
    qty_buy := 0
    qty_sell := 0
    buy_value := 0
    sell_value := 0
    cashflow := 0
    min_dt := none
    max_dt := none
    any_expiry := none
    any_symbol := none
    any_option_type := none
    any_account := none
    any_multiplier := none
    is_option := none }

/-- Folding one accepted row into its group (lines 104–139). -/
def updG (g : G) (r : Row) : G :=
  let cm := rowCm r
  let qty_abs := rowQtyAbs r
  let price := rowPrice r
  let dt := r.date_iso
  let g :=
    { g with
      any_expiry := orNone r.expiry_date
      any_symbol := some r.symbol
      any_option_type := orNone r.option_type
      any_account := some r.account
      any_multiplier := some cm
      is_option := some (truthyBool r.is_option)
      legs := g.legs ++ [legOfRow r] }
  let g :=
    if r.side = "BUY" then
      { g with
        qty_buy := g.qty_buy + qty_abs
        buy_value := qadd g.buy_value (qmul price (intQ qty_abs))
        cashflow := qsub g.cashflow (qmul (qmul price (intQ qty_abs)) cm) }
    else if r.side = "SELL" then
      { g with
        qty_sell := g.qty_sell + qty_abs
        sell_value := qadd g.sell_value (qmul price (intQ qty_abs))
        cashflow := qadd g.cashflow (qmul (qmul price (intQ qty_abs)) cm) }
    else g
  { g with
    min_dt := match g.min_dt with
      | none => some dt
      | some m => some (if dt < m then dt else m)
    max_dt := match g.max_dt with
      | none => some dt
      | some m => some (if m < dt then dt else m) }

/-- Update the insertion-ordered group map at key `k` (Python `dict`
access through `defaultdict`: update in place, or append a fresh entry). -/
def assocUpdate (k : AggKey) (f : G → G) :
    List (AggKey × G) → List (AggKey × G)
  | [] => [(k, f emptyG)]
  | (k', g) :: t =>
    if k' = k then (k', f g) :: t else (k', g) :: assocUpdate k f t

/-- Processing of one CSV row (lines 69–139): rows whose `parse_ok` cell
is not truthy are skipped, the rest are folded into the ordered group map. -/
def groupStep (gs : List (AggKey × G)) (r : Row) : List (AggKey × G) :=
  if truthyParse r.parse_ok then assocUpdate (keyOf r) (fun g => updG g r) gs
  else gs

/-- The grouping pass of `main` (lines 67–139). -/
def buildGroups (rows : List Row) : List (AggKey × G) :=
  rows.foldl groupStep []

/-- One output round-trip object (lines 185–205).  The fields the source
copies straight out of the loop key are carried as `key`; `strike` is the
`float(strike)` conversion of the key's strike string. -/
structure RT where
  round_trip_id : Nat
  key : AggKey
  contract_multiplier : ℚ
  strike : Option ℚ
  qty_buy : ℤ
  qty_sell : ℤ
  buy_vwap : Option ℚ
  sell_vwap : Option ℚ
  gross_buy_value : ℚ
  gross_sell_value : ℚ
  realized_pnl_cash : ℚ
  open_dt : Option Instant
  close_dt : Option Instant
  synthetic_expiration : Bool
  legs : List Leg
deriving DecidableEq, Repr

/-- The multiplier re-read at finalization, line 147:
`cm = g["any_multiplier"] or 1.0` (Python `or` treats both `None` and
`0.0` as absent). -/
def finalCm (g : G) : ℚ :=
  match g.any_multiplier with
  | some c => if c = 0 then 1 else c
  | none => 1

/-- The synthetic-expiration trigger (lines 151–156): the end-of-day
instant of the group's expiry date, provided the group is not flat, the
expiry parses as a date, and that instant lies before `now`. -/
def synTrigger (now : Instant) (expiry : String) (net_qty : ℤ) :
    Option Instant :=
  if expiry ≠ "" && net_qty ≠ 0 then
    match isoDate? expiry with
    | some (y, m, d) =>
      if eodInstant y m d < now then some (eodInstant y m d) else none
    | none => none
  else none

/-- The injected flattening leg (lines 158–173). -/
def syntheticLeg (cm : ℚ) (net_qty : ℤ) (sdt : Instant) : Leg :=
  { message_id := none
    trade_id := "SYN_EXP"
    side := if 0 < net_qty then "SELL" else "BUY"
    qty := |net_qty|
    price := 0
    cashflow_per_unit := 0
    contract_multiplier := cm
    underlying_mark := none
    impl_vol := none
    dt := sdt
    subject := some "Synthetic expiration at $0.00" }

/-- Finalization of one group (lines 145–208): possible synthetic-leg
injection, VWAPs, rounded realized P&L, output object.  `now` is the
`datetime.now(timezone.utc)` instant, passed explicitly. -/
def finalizeG (now : Instant) (rid : Nat) (k : AggKey) (g : G) : RT :=
  let cm := finalCm g
  let net_qty := g.qty_buy - g.qty_sell
  let (synthetic_expiration, legs, max_dt) :=
    match synTrigger now k.expiry_date net_qty with
    | some sdt =>
      (true, g.legs ++ [syntheticLeg cm net_qty sdt],
        match g.max_dt with
        | none => some sdt
        | some m => some (if m < sdt then sdt else m))
    | none => (false, g.legs, g.max_dt)
  { round_trip_id := rid
    key := k
    contract_multiplier := cm
    strike := if k.strike = "" then none else pyFloat? k.strike
    qty_buy := g.qty_buy
    qty_sell := g.qty_sell
    buy_vwap := BuildRoundTrips.vwap g.qty_buy g.buy_value
    sell_vwap := vwap g.qty_sell g.sell_value
    gross_buy_value := if g.qty_buy = 0 then 0 else g.buy_value
    gross_sell_value := if g.qty_sell = 0 then 0 else g.sell_value
    realized_pnl_cash := roundHalfUp 2 g.cashflow
    open_dt := g.min_dt
    close_dt := max_dt
    synthetic_expiration := synthetic_expiration
    legs := legs }

/-- The output loop (lines 141–208): sequential ids from 1 in group
insertion order. -/
def finalizeAll (now : Instant) : Nat → List (AggKey × G) → List RT
  | _, [] => []
  | rid, (k, g) :: t => finalizeG now rid k g :: finalizeAll now (rid + 1) t

/-- `main` of build_round_trips.py as a pure function from the accepted
rows (and the explicit processing instant) to the round-trip ledger. -/
def buildRoundTrips (now : Instant) (rows : List Row) : List RT :=
  finalizeAll now 1 (buildGroups rows)

/-- The ledger entry produced for one identity key, if any. -/
def rtFor (now : Instant) (rows : List Row) (k : AggKey) : Option RT :=
  (buildRoundTrips now rows).find? (fun rt => rt.key = k)

end BuildRoundTrips

namespace RoundTripValidator

open GmailDL BuildRoundTrips

/-- `TOL = Decimal("0.0001")` (round_trip_validator.py line 17). -/
def TOL : ℚ := Rat.divInt 1 10000

/-- One appended issue (round_trip_validator.py; one constructor per
`issues.append` site, tagged by round-trip id).  The claim under audit
only observes whether this list is empty. -/
inductive Issue
  | missingField (rt_id : Nat) (field : String)
  | invalidOpenDt (rt_id : Nat)
  | invalidCloseDt (rt_id : Nat)
  | openAfterClose (rt_id : Nat)
  | qtyBuyMismatch (rt_id : Nat) (stored recomp : ℤ)
  | qtySellMismatch (rt_id : Nat) (stored recomp : ℤ)
  | grossBuyMismatch (rt_id : Nat) (stored recomp : ℚ)
  | grossSellMismatch (rt_id : Nat) (stored recomp : ℚ)
  | buyVwapMismatch (rt_id : Nat) (stored recomp : ℚ)
  | sellVwapMismatch (rt_id : Nat) (stored recomp : ℚ)
  | pnlMismatch (rt_id : Nat) (stored recomp : ℚ)
  | synthNonFlat (rt_id : Nat)
deriving DecidableEq, Repr

/-- The synthetic-leg predicate (lines 81–85). -/
def isSynth (l : Leg) : Bool :=
  l.trade_id = "SYN_EXP"
    || strStartsWith (strLower (l.subject.getD "")) "synthetic expiration"
    || (l.message_id = none && l.price = 0)

/-- The checks the source runs inside the `for rt in data` loop
(lines 52–71).  In the typed model every critical field is present and
every stored instant is a well-formed timestamp, so of those checks only
`open_dt > close_dt` (lines 64–69) can fire; the missing-field and
date-format appends are unreachable and contribute no issues here. -/
def perRtIssues (rt : RT) : List Issue :=
  match rt.open_dt, rt.close_dt with
  | some o, some c =>
    if c < o then [Issue.openAfterClose rt.round_trip_id] else []
  | _, _ => []

/-- The interpreter state for `main`'s local variables.  Because of the
mis-indentation in the source (lines 87–136 sit at function level, outside
the `for rt in data` loop, and lines 107–136 inside `if not is_synth`),
the loop body only records per-row checks and the last-bound values of
`rt`, `cm`, `leg` and `is_synth`; the aggregate accumulators are re-zeroed
by every iteration and never updated inside the loop. -/
structure VState where
  issues : List Issue
  lastRt : Option RT
  cmV : ℚ
  lastLeg : Option Leg
  lastSynth : Bool
  buy_value : ℚ
  sell_value : ℚ
  buy_qty : ℤ
  sell_qty : ℤ
deriving Repr

/-- State before the `for rt in data` loop. -/
def vInit : VState :=
  { issues := []
    lastRt := none
    cmV := 1
    lastLeg := none
    lastSynth := false
    buy_value := 0
    sell_value := 0
    buy_qty := 0
    sell_qty := 0 }

/-- One iteration of `for rt in data` (lines 47–85) as executed: run the
per-row checks, rebind `rt`/`cm`, zero the accumulators, and let the inner
`for leg in legs` loop — whose entire body is the `is_synth = (...)`
assignment — leave `leg`/`is_synth` bound to the last leg, if any. -/
def vStepRt (st : VState) (rt : RT) : VState :=
  let st :=
    { st with
      issues := st.issues ++ perRtIssues rt
      lastRt := some rt
      cmV := rt.contract_multiplier
      buy_value := 0
      sell_value := 0
      buy_qty := 0
      sell_qty := 0 }
  match rt.legs.getLast? with
  | none => st
  | some l => { st with lastLeg := some l, lastSynth := isSynth l }

/-- The code after the `for rt in data` loop (lines 87–136): it reads the
last-bound `leg` (a `NameError` — modelled as `none` — if no leg was ever
bound), folds that single leg into the zeroed accumulators unless it is
synthetic, and, still under `if not is_synth`, compares the one-leg
aggregates against the stored fields of the last `rt`. -/
def vTail (st : VState) : Option (List Issue) :=
  match st.lastLeg with
  | none => none
  | some leg =>
    match st.lastRt with
    | none => none
    | some rt =>
      let side := strUpper leg.side
      let qty := leg.qty
      let price := leg.price
      if st.lastSynth then some st.issues
      else
        let bv := if side = "BUY" then qadd st.buy_value (qmul price (intQ qty)) else st.buy_value
        let bq := if side = "BUY" then st.buy_qty + qty else st.buy_qty
        let sv := if side = "SELL" then qadd st.sell_value (qmul price (intQ qty)) else st.sell_value
        let sq := if side = "SELL" then st.sell_qty + qty else st.sell_qty
        let calc_buy_vwap := vwap bq bv
        let calc_sell_vwap := vwap sq sv
        let rid := rt.round_trip_id
        let i1 := if rt.qty_buy ≠ bq then [Issue.qtyBuyMismatch rid rt.qty_buy bq] else []
        let i2 := if rt.qty_sell ≠ sq then [Issue.qtySellMismatch rid rt.qty_sell sq] else []
        let i3 :=
          if roundHalfEven 4 rt.gross_buy_value ≠ roundHalfEven 4 bv then
            [Issue.grossBuyMismatch rid rt.gross_buy_value bv] else []
        let i4 :=
          if roundHalfEven 4 rt.gross_sell_value ≠ roundHalfEven 4 sv then
            [Issue.grossSellMismatch rid rt.gross_sell_value sv] else []
        let i5 :=
          match rt.buy_vwap, calc_buy_vwap with
          | some s, some c =>
            if qlt TOL (qabs (qsub s c)) then [Issue.buyVwapMismatch rid s c] else []
          | _, _ => []
        let i6 :=
          match rt.sell_vwap, calc_sell_vwap with
          | some s, some c =>
            if qlt TOL (qabs (qsub s c)) then [Issue.sellVwapMismatch rid s c] else []
          | _, _ => []
        let calc_pnl := qmul (qsub sv bv) st.cmV
        let i7 :=
          if qlt (Rat.divInt 1 100) (qabs (qsub rt.realized_pnl_cash calc_pnl)) then
            [Issue.pnlMismatch rid rt.realized_pnl_cash calc_pnl] else []
        let i8 :=
          if rt.synthetic_expiration && decide (bq - sq ≠ 0) then
            [Issue.synthNonFlat rid] else []
        some (st.issues ++ i1 ++ i2 ++ i3 ++ i4 ++ i5 ++ i6 ++ i7 ++ i8)

/-- `main` of round_trip_validator.py as a function from the loaded ledger
to the issue list; `none` models the uncaught `NameError` the mis-indented
code raises when no leg variable was ever bound (empty ledger, or ledgers
whose round trips all have empty leg lists). -/
def validate (data : List RT) : Option (List Issue) :=
  vTail (data.foldl vStepRt vInit)

end RoundTripValidator

namespace Scenarios

open GmailDL BuildRoundTrips

/-- Scenario 1 (spec §8), first fill: `BUY 10 @ 1.00`, multiplier 100. -/
def s1buy : Row :=
  { message_id := "m1"
    trade_id := "1"
    side := "BUY"
    parse_ok := "True"
    account := "A1"
    symbol := "XYZ"
    is_option := "True"
    expiry_date := ""
    strike := "500"
    option_type := "PUT"
    fut_root_symbol := ""
    contract_multiplier := some 100
    qty_signed := some 10
    qty_abs := some 10
    price := some 1
    date_iso := 100
    underlying_mark := none
    impl_vol := none
    subject := none }

/-- Scenario 1 (spec §8), second fill: `SELL 10 @ 1.50`, same key. -/
def s1sell : Row :=
  { s1buy with
    message_id := "m2"
    trade_id := "2"
    side := "SELL"
    qty_signed := some (-10)
    price := some (Rat.divInt 3 2)
    date_iso := 200 }

/-- The two scenario-1 fills, in arrival order. -/
def s1rows : List Row := [s1buy, s1sell]

/-- The identity key both scenario-1 fills group under. -/
def s1key : AggKey :=
  { account := "A1"
    symbol := "XYZ"
    cm := 100
    is_option := true
    expiry_date := ""
    strike := "500"
    option_type := "PUT" }

/-- A processing instant for runs that must not trigger synthetic
expiration in scenario 1 (the key has no expiry date, so any instant
works). -/
def s1now : Instant := 1000

/-- Scenario 2 (spec §8): a single `BUY 5 @ 2.00` on a contract whose
expiry (2024-05-17) is in the past at the processing instant. -/
def s2buy : Row :=
  { s1buy with
    message_id := "m3"
    trade_id := "3"
    qty_signed := some 5
    qty_abs := some 5
    price := some 2
    expiry_date := "2024-05-17"
    date_iso := 100 }

/-- The scenario-2 fill list. -/
def s2rows : List Row := [s2buy]

/-- The identity key of the scenario-2 group. -/
def s2key : AggKey := { s1key with expiry_date := "2024-05-17" }

/-- A processing instant later than the 2024-05-17 end-of-day instant. -/
def s2now : Instant := 100000000000

end Scenarios

namespace BuildRoundTrips

/-- The signed quantity a stored leg contributes to the position
(BUY positive, SELL negative, anything else ignored — exactly the side
strings the accumulation loop at lines 129–136 recognises). -/
def legNet (l : Leg) : ℤ :=
  if l.side = "BUY" then l.qty else if l.side = "SELL" then - l.qty else 0

/-- Net signed quantity over a stored leg list. -/
def legsNet (ls : List Leg) : ℤ := (ls.map legNet).sum

/-- Lookup of a group by key in the ordered group map. -/
def lookupG (gs : List (AggKey × G)) (k : AggKey) : Option G :=
  (gs.find? (fun p => p.1 = k)).map (fun p => p.2)

/-- The accepted rows that land in group `k`, in arrival order. -/
def rowsForKey (rows : List Row) (k : AggKey) : List Row :=
  rows.filter (fun r => truthyParse r.parse_ok && keyOf r = k)

/-- Folding one accepted row into an optional group (a `defaultdict`
access followed by the update). -/
def applyRow (og : Option G) (r : Row) : Option G :=
  some (updG (og.getD emptyG) r)

/-- The five stored aggregates the order-independence claim is about. -/
def fields5 (rt : RT) : ℤ × ℤ × Option ℚ × Option ℚ × ℚ :=
  (rt.qty_buy, rt.qty_sell, rt.buy_vwap, rt.sell_vwap, rt.realized_pnl_cash)

/-- Per-row notional contribution `price * qty` (pre-multiplier). -/
def notionalC (r : Row) : ℚ :=
  GmailDL.qmul (rowPrice r) (GmailDL.intQ (rowQtyAbs r))

/-- Per-row cashflow magnitude `price * qty * multiplier`. -/
def cashC (r : Row) : ℚ :=
  GmailDL.qmul (GmailDL.qmul (rowPrice r) (GmailDL.intQ (rowQtyAbs r))) (rowCm r)

/-- Per-row signed cashflow contribution (negative for BUY rows, positive
for SELL rows, zero for rows with any other side string). -/
def signedCashC (r : Row) : ℚ :=
  if r.side = "BUY" then -(cashC r)
  else if r.side = "SELL" then cashC r else 0

/-- Total BUY quantity over the rows of one group. -/
def sumQtyBuy (rows : List Row) (k : AggKey) : ℤ :=
  (((rowsForKey rows k).filter (fun r => r.side = "BUY")).map rowQtyAbs).sum

/-- Total SELL quantity over the rows of one group. -/
def sumQtySell (rows : List Row) (k : AggKey) : ℤ :=
  (((rowsForKey rows k).filter (fun r => r.side = "SELL")).map rowQtyAbs).sum

/-- Total BUY notional over the rows of one group. -/
def sumBuyValue (rows : List Row) (k : AggKey) : ℚ :=
  (((rowsForKey rows k).filter (fun r => r.side = "BUY")).map notionalC).sum

/-- Total SELL notional over the rows of one group. -/
def sumSellValue (rows : List Row) (k : AggKey) : ℚ :=
  (((rowsForKey rows k).filter (fun r => r.side = "SELL")).map notionalC).sum

/-- Total signed cashflow over the rows of one group. -/
def sumCashflow (rows : List Row) (k : AggKey) : ℚ :=
  ((rowsForKey rows k).map signedCashC).sum

end BuildRoundTrips

namespace Scenarios

open GmailDL BuildRoundTrips

/-- The ledger entry the Aggregator produces for the scenario-2 key. -/
def s2rt : RT := (rtFor s2now s2rows s2key).getD (finalizeG 0 0 s2key emptyG)

end Scenarios

namespace Scenarios

open GmailDL BuildRoundTrips

/-- Scenario 5 (spec §8), first /ES fill: raw multiplier string "1/50",
which `float()` fails to parse, so the parsed value is absent. -/
def es1 : Row :=
  { s1buy with
    message_id := "m4"
    trade_id := "4"
    symbol := "ESM24"
    fut_root_symbol := "/ES"
    contract_multiplier := none
    price := some 2 }

/-- Scenario 5 (spec §8), second /ES fill: raw multiplier "20". -/
def es2 : Row :=
  { es1 with
    message_id := "m5"
    trade_id := "5"
    side := "SELL"
    qty_signed := some (-10)
    contract_multiplier := some 20
    date_iso := 300 }

end Scenarios

namespace GmailDL

/-- The ASCII whitespace set of Python's `str.split()` and of the regex
class `\s` (space, tab, newline, carriage return, vertical tab, form
feed). -/
def isPyWhite (c : Char) : Bool :=
  c = ' ' || c = '\t' || c = '\n' || c = '\r' || c = '\x0b' || c = '\x0c'

/-- Python `str.split()` with no separator: split into maximal
whitespace-free words, ignoring leading/trailing whitespace. -/
def wordsOfAux : List Char → List Char → List (List Char)
  | [], cur => if cur = [] then [] else [cur.reverse]
  | c :: t, cur =>
    if isPyWhite c then
      if cur = [] then wordsOfAux t [] else cur.reverse :: wordsOfAux t []
    else wordsOfAux t (c :: cur)

/-- Python `s.split()`. -/
def wordsOf (cs : List Char) : List (List Char) := wordsOfAux cs []

/-- Python substring containment `sub in s`. -/
def containsSub (cs sub : List Char) : Bool :=
  match cs with
  | [] => sub.isEmpty
  | _ :: t => sub.isPrefixOf cs || containsSub t sub

/-- Parse of Python `int(s)` restricted to an optional sign followed by
digits (the callers below only reach it with regex-shaped tokens; on any
other text the model reports `none`, where `int()` raises). -/
def pyIntCore (t : List Char) : Option ℤ :=
  if t ≠ [] && t.all isDigitChar then some (digitsVal t : ℤ) else none

/-- Parse of Python `int(s)` restricted to an optional sign followed by
digits (the callers below only reach it with regex-shaped tokens; on any
other text the model reports `none`, where `int()` raises). -/
def pyInt? (s : String) : Option ℤ :=
  match s.data with
  | [] => none
  | c :: t =>
    if c = '+' then pyIntCore t
    else if c = '-' then (pyIntCore t).map (fun z => -z)
    else pyIntCore (c :: t)

end GmailDL

namespace TosTradeParser

open GmailDL

/-- `MONTHS` (tos_trade_parser.py lines 7–10). -/
def MONTHS : List (String × Nat) :=
  [("JAN", 1), ("FEB", 2), ("MAR", 3), ("APR", 4), ("MAY", 5), ("JUN", 6),
   ("JUL", 7), ("AUG", 8), ("SEP", 9), ("OCT", 10), ("NOV", 11), ("DEC", 12)]

/-- Dict lookup `MONTHS[mon]` / membership `mon in MONTHS`. -/
def monthsLookup (s : String) : Option Nat :=
  (MONTHS.find? (fun p => p.1 = s)).map (fun p => p.2)

/-- The `for d in range(1, 32)` loop of `_nth_weekday` (lines 16–26),
from day `d` with `count` matches seen and `fuel` iterations left:
a `date(year, month, d)` constructor failure (day past the month's end)
breaks the loop, a weekday match bumps the count, and hitting `count == n`
returns the day. -/
def nthWeekdayAux (y m w n : Nat) : Nat → Nat → Nat → Option Nat
  | 0, _, _ => none
  | fuel + 1, d, count =>
    if daysInMonth y m < d then none
    else if weekdayOf y m d = w then
      if count + 1 = n then some d
      else nthWeekdayAux y m w n fuel (d + 1) (count + 1)
    else nthWeekdayAux y m w n fuel (d + 1) count

/-- `_nth_weekday` (tos_trade_parser.py lines 14–26): the n-th date with
the given weekday (Mon = 0 … Sun = 6) in month `m` of year `y`, or `None`.
A year outside `date`'s 1–9999 range makes the first constructor call
raise, breaking the loop immediately. -/
def nth_weekday (y : ℤ) (m w n : Nat) : Option (Nat × Nat × Nat) :=
  if y < 1 || 9999 < y then none
  else (nthWeekdayAux y.toNat m w n 31 1 0).map (fun d => (y.toNat, m, d))

/-- The weekday selected by the hint (line 40): Thursday (3) when the hint
text contains "THURSDAY" case-insensitively, else Friday (4); a `None` or
empty hint is falsy in Python and keeps the Friday default. -/
def targetWeekday (weekday_hint : Option String) : Nat :=
  match weekday_hint with
  | some h =>
    if containsSub (h.data.map Char.toUpper) "THURSDAY".data then 3 else 4
  | none => 4

/-- `_parse_weekly_expiry` (tos_trade_parser.py lines 28–43), returning
the resolved date as a `(year, month, day)` triple (the source formats it
as the ISO string `dt.isoformat()`, an injective rendering).  `Except`
models the uncaught `ValueError` of `int()` on a non-numeric token. -/
def parse_weekly_expiry (exp_month_yr wk : String)
    (weekday_hint : Option String) :
    Except Unit (Option (Nat × Nat × Nat)) :=
  match wordsOf exp_month_yr.data with
  | [monCs, yrCs] =>
    let mon_txt := String.mk (monCs.map Char.toUpper)
    match monthsLookup mon_txt with
    | none => .ok none
    | some month =>
      match pyInt? (String.mk yrCs) with
      | none => .error ()
      | some yv =>
        let year : ℤ := if yrCs.length = 2 then 2000 + yv else yv
        match pyInt? wk with
        | none => .error ()
        | some nv => .ok (nth_weekday year month (targetWeekday weekday_hint)
            nv.toNat)
  | _ => .ok none

end TosTradeParser

namespace GmailDL

/-- The consecutive days `start, start+1, …` (`count` of them). -/
def daysUpTo (start : Nat) : Nat → List Nat
  | 0 => []
  | c + 1 => start :: daysUpTo (start + 1) c

/-- Modelled from the spec: the occurrences of the target weekday within a
month, in order — "compute the `N`-th occurrence of the target weekday …
within that month" makes the resolution the `N`-th entry of this list. -/
def weekdayOccurrences (y m w : Nat) : List Nat :=
  (daysUpTo 1 (daysInMonth y m)).filter (fun d => weekdayOf y m d = w)

end GmailDL

/-- Decidable equality on `Except` results. -/
instance exceptDecEq {e a : Type} [DecidableEq e] [DecidableEq a] :
    DecidableEq (Except e a)
  | .error x, .error y =>
    if h : x = y then .isTrue (by rw [h]) else .isFalse (by simp [h])
  | .error _, .ok _ => .isFalse (by simp)
  | .ok _, .error _ => .isFalse (by simp)
  | .ok x, .ok y =>
    if h : x = y then .isTrue (by rw [h]) else .isFalse (by simp [h])

namespace Re

open GmailDL

/-- Regular-expression abstract syntax, covering exactly the constructs of
the Python patterns embedded below: character classes, concatenation,
alternation (left-preferring), greedy and lazy counted repetition,
numbered capture groups, the word boundary `\b`, the end anchor `$`, and
the lookahead `(?=...)`. -/
inductive RE where
  | eps
  | cls (p : Char → Bool)
  | seq (a b : RE)
  | alt (a b : RE)
  | rep (a : RE) (lo : Nat) (hi : Option Nat) (lz : Bool)
  | grp (n : Nat) (a : RE)
  | wb
  | eos
  | la (a : RE)

/-- Python `\w` (ASCII range: letters, digits, underscore). -/
def isWordChar (c : Char) : Bool :=
  isDigitChar c || (65 ≤ c.toNat && c.toNat ≤ 90)
    || (97 ≤ c.toNat && c.toNat ≤ 122) || c = '_'

/-- Captured groups: number paired with captured text, latest first. -/
abbrev Caps := List (Nat × List Char)

/-- Whether the position between `prev` and the head of `s` is a `\b`
word boundary. -/
def atBoundary (prev : Option Char) (s : List Char) : Bool :=
  let l := match prev with | some c => isWordChar c | none => false
  let r := match s with | c :: _ => isWordChar c | [] => false
  l != r

/-- The backtracking matcher: all ways `r` can match a prefix of `s`, as
`(rest, last-consumed-char, captures)` triples in Python's preference
order (alternation left first, greedy repetition longest first, lazy
shortest first).  `prev` is the character before `s` (for `\b`), `fuel`
bounds the recursion; every concrete run below is given ample fuel, and
the soundness results hold for every fuel. -/
def mtch : Nat → RE → List Char → Option Char → Caps →
    List (List Char × Option Char × Caps)
  | 0, _, _, _, _ => []
  | fuel + 1, r, s, prev, gs =>
    match r with
    | .eps => [(s, prev, gs)]
    | .cls p =>
      match s with
      | [] => []
      | c :: t => if p c then [(t, some c, gs)] else []
    | .seq a b =>
      (mtch fuel a s prev gs).flatMap
        (fun out => mtch fuel b out.1 out.2.1 out.2.2)
    | .alt a b => mtch fuel a s prev gs ++ mtch fuel b s prev gs
    | .grp n a =>
      (mtch fuel a s prev gs).map
        (fun out =>
          (out.1, out.2.1, (n, s.take (s.length - out.1.length)) :: out.2.2))
    | .rep a lo hi lz =>
      match lo with
      | lo' + 1 =>
        (mtch fuel a s prev gs).flatMap
          (fun out =>
            mtch fuel (.rep a lo' (hi.map (· - 1)) lz) out.1 out.2.1 out.2.2)
      | 0 =>
        if hi = some 0 then [(s, prev, gs)]
        else
          let more := (mtch fuel a s prev gs).flatMap
            (fun out =>
              mtch fuel (.rep a 0 (hi.map (· - 1)) lz) out.1 out.2.1 out.2.2)
          if lz then (s, prev, gs) :: more else more ++ [(s, prev, gs)]
    | .wb => if atBoundary prev s then [(s, prev, gs)] else []
    | .eos => if s = [] || s = ['\n'] then [(s, prev, gs)] else []
    | .la a =>
      if (mtch fuel a s prev gs).isEmpty then [] else [(s, prev, gs)]

/-- Fuel that is ample for every pattern below on input `s`. -/
def fuelFor (s : List Char) : Nat := 200 * s.length + 10000

/-- Python `pattern.match(s)` at one position: the preferred match. -/
def firstMatch (fuel : Nat) (r : RE) (s : List Char) (prev : Option Char) :
    Option (List Char × Option Char × Caps) :=
  (mtch fuel r s prev []).head?

/-- `re.search` main loop: try each start position left to right.  On a
hit, returns the text before the match, the captures (group 0 = the whole
match, prepended), and the rest after the match. -/
def searchAux (fuel : Nat) (r : RE) :
    Nat → List Char → Option Char → List Char →
    Option (List Char × Caps × List Char)
  | 0, _, _, _ => none
  | pf + 1, s, prev, preRev =>
    match firstMatch fuel r s prev with
    | some (rest, _, caps) =>
      some (preRev.reverse,
        (0, s.take (s.length - rest.length)) :: caps, rest)
    | none =>
      match s with
      | [] => none
      | c :: t => searchAux fuel r pf t (some c) (c :: preRev)

/-- Python `re.search(r, s)`. -/
def search (r : RE) (s : List Char) :
    Option (List Char × Caps × List Char) :=
  searchAux (fuelFor s) r (s.length + 1) s none []

/-- Python `m.group(n)` (`none` when the group did not participate). -/
def capOf (caps : Caps) (n : Nat) : Option (List Char) :=
  (caps.find? (fun p => p.1 = n)).map (fun p => p.2)

/-- One `re.sub` replacement step plus rescan after the match (the next
`\b` context is the last character before the resume point). -/
def subAllAux (r : RE) (repl : List Char) :
    Nat → List Char → Option Char → List Char
  | 0, s, _ => s
  | f + 1, s, prev =>
    match searchAux (fuelFor s) r (s.length + 1) s prev [] with
    | none => s
    | some (pre, caps, rest) =>
      let consumed := (capOf caps 0).getD []
      let newPrev :=
        match consumed.getLast? with
        | some c => some c
        | none =>
          match pre.getLast? with
          | some c => some c
          | none => prev
      pre ++ repl ++ subAllAux r repl f rest newPrev

/-- Python `re.sub(r, repl, s)` (all non-overlapping matches). -/
def subAll (r : RE) (repl : List Char) (s : List Char) : List Char :=
  subAllAux r repl (s.length + 1) s none

/-! Pattern combinators (transliteration helpers). -/

/-- A literal character. -/
def chr (c : Char) : RE := .cls (fun x => x = c)

/-- A case-insensitive literal character (`re.IGNORECASE`). -/
def chrCI (c : Char) : RE := .cls (fun x => x.toLower = c.toLower)

/-- A literal string. -/
def lit (s : String) : RE := s.data.foldr (fun c r => .seq (chr c) r) .eps

/-- A case-insensitive literal string. -/
def litCI (s : String) : RE := s.data.foldr (fun c r => .seq (chrCI c) r) .eps

/-- `[0-9]` / `\d`. -/
def digit : RE := .cls GmailDL.isDigitChar

/-- `[A-Z]`. -/
def upper : RE := .cls (fun c => 65 ≤ c.toNat && c.toNat ≤ 90)

/-- `[A-Z]` under `re.IGNORECASE` (also matches `a`–`z`). -/
def upperCI : RE :=
  .cls (fun c => (65 ≤ c.toNat && c.toNat ≤ 90)
    || (97 ≤ c.toNat && c.toNat ≤ 122))

/-- `\s` (Python whitespace class, ASCII range). -/
def wsp : RE := .cls isPyWhite

/-- `.` (any character except a newline). -/
def dot : RE := .cls (fun c => c ≠ '\n')

/-- `x*`. -/
def star (a : RE) : RE := .rep a 0 none false

/-- `x+`. -/
def plus (a : RE) : RE := .rep a 1 none false

/-- `x?`. -/
def opt (a : RE) : RE := .rep a 0 (some 1) false

/-- The numbered groups of a pattern, with their bodies, in source
order.  (Groups under a lookahead are listed too, harmlessly: the matcher
discards captures made inside a lookahead.) -/
def grpsOf : RE → List (Nat × RE)
  | .seq a b => grpsOf a ++ grpsOf b
  | .alt a b => grpsOf a ++ grpsOf b
  | .rep a _ _ _ => grpsOf a
  | .grp n a => (n, a) :: grpsOf a
  | .la a => grpsOf a
  | _ => []

/-- Syntactic criterion that group `n` is bound on every successful match
of the pattern: present on both alternation branches, not only inside a
possibly-skipped repetition or a lookahead. -/
def mustCap (n : Nat) : RE → Bool
  | .seq a b => mustCap n a || mustCap n b
  | .alt a b => mustCap n a && mustCap n b
  | .rep a lo _ _ => decide (lo ≠ 0) && mustCap n a
  | .grp m a => decide (m = n) || mustCap n a
  | _ => false

/-- Well-formed counted repetitions: the lower bound never exceeds the
upper bound (true of every pattern in the repository). -/
def wfRE : RE → Bool
  | .seq a b => wfRE a && wfRE b
  | .alt a b => wfRE a && wfRE b
  | .rep a lo hi _ =>
    (match hi with | none => true | some k => decide (lo ≤ k)) && wfRE a
  | .grp _ a => wfRE a
  | .la a => wfRE a
  | _ => true

/-- Declarative over-approximation of the text a pattern can consume:
`M r u` holds for every prefix `u` that the backtracking matcher can
consume for `r`.  Anchors and lookaheads consume nothing; a repetition
consumes any chunk sequence compatible with the bounds. -/
inductive M : RE → List Char → Prop
  | eps : M .eps []
  | cls {p : Char → Bool} {c : Char} : p c = true → M (.cls p) [c]
  | seq {a b : RE} {u v : List Char} : M a u → M b v → M (.seq a b) (u ++ v)
  | altL {a b : RE} {u : List Char} : M a u → M (.alt a b) u
  | altR {a b : RE} {u : List Char} : M b u → M (.alt a b) u
  | grp {n : Nat} {a : RE} {u : List Char} : M a u → M (.grp n a) u
  | wb : M .wb []
  | eos : M .eos []
  | la {a : RE} : M (.la a) []
  | repNil {a : RE} {hi : Option Nat} {lz : Bool} : M (.rep a 0 hi lz) []
  | repCons {a : RE} {lo : Nat} {hi : Option Nat} {lz : Bool}
      {u v : List Char} : hi ≠ some 0 → M a u →
      M (.rep a (lo - 1) (hi.map (fun k => k - 1)) lz) v →
      M (.rep a lo hi lz) (u ++ v)

end Re

namespace TosTradeParser

open GmailDL Re

/-- `SIDE_MAP` (tos_trade_parser.py line 12). -/
def SIDE_MAP : List (String × String) :=
  [("BOT", "BUY"), ("BUY", "BUY"), ("SOLD", "SELL"), ("SELL", "SELL")]

/-- `SIDE_MAP.get(side_raw)`. -/
def sideMapLookup (s : String) : Option String :=
  (SIDE_MAP.find? (fun p => p.1 = s)).map (fun p => p.2)

/-- `r'\btIP\b\s*'` with `re.IGNORECASE` (line 47). -/
def tipRE : RE := .seq .wb (.seq (litCI "tIP") (.seq .wb (star wsp)))

/-- `r'\s+'` (line 48). -/
def wsRunRE : RE := plus wsp

/-- `r'#(\d+)'` (line 68). -/
def tradeIdRE : RE := .seq (chr '#') (.grp 1 (plus digit))

/-- `r'\b(BOT|BUY|SOLD|SELL)\s+([+-]?\d+)\b'` (line 73). -/
def sideQtyRE : RE :=
  .seq .wb (.seq
    (.grp 1 (.alt (lit "BOT")
      (.alt (lit "BUY") (.alt (lit "SOLD") (lit "SELL")))))
    (.seq (plus wsp)
      (.seq (.grp 2 (.seq (opt (.cls (fun c => c = '+' || c = '-')))
        (plus digit))) .wb)))

/-- `[A-Z0-9]`. -/
def upperDigit : RE :=
  .cls (fun c => (65 ≤ c.toNat && c.toNat ≤ 90) || GmailDL.isDigitChar c)

/-- `r'\b([A-Z]{1,6}|/[A-Z]{1,3}[A-Z0-9]{0,4})\s+(\d+(?:/\d+)?)\b'`
(line 93). -/
def symbolRE : RE :=
  .seq .wb (.seq
    (.grp 1 (.alt (.rep upper 1 (some 6) false)
      (.seq (chr '/') (.seq (.rep upper 1 (some 3) false)
        (.rep upperDigit 0 (some 4) false)))))
    (.seq (plus wsp)
      (.seq (.grp 2 (.seq (plus digit)
        (opt (.seq (chr '/') (plus digit))))) .wb)))

/-- `r'\b([A-Z]{1,6})\s+(?:\d{1,2}\s+[A-Z]{3}\s+\d{2})\b'` (line 99). -/
def symbolFallbackRE : RE :=
  .seq .wb (.seq (.grp 1 (.rep upper 1 (some 6) false))
    (.seq (plus wsp) (.seq (.rep digit 1 (some 2) false)
      (.seq (plus wsp) (.seq (.rep upper 3 (some 3) false)
        (.seq (plus wsp) (.seq (.rep digit 2 (some 2) false) .wb)))))))

/-- `r'\b(\d{1,2})\s+([A-Z]{3})\s+(\d{2})\b'` (line 105). -/
def expiryDayRE : RE :=
  .seq .wb (.seq (.grp 1 (.rep digit 1 (some 2) false))
    (.seq (plus wsp) (.seq (.grp 2 (.rep upper 3 (some 3) false))
      (.seq (plus wsp) (.seq (.grp 3 (.rep digit 2 (some 2) false)) .wb)))))

/-- `r'\b([A-Z]{3}\s+\d{2})\s+(?:\((Thursday)\)\s+)?\((?:Wk|Wkly|Weeklys)\s*(\d)\)'`
compiled with `re.IGNORECASE` (lines 116–119). -/
def weeklyRE : RE :=
  .seq .wb (.seq
    (.grp 1 (.seq (.rep upperCI 3 (some 3) false)
      (.seq (plus wsp) (.rep digit 2 (some 2) false))))
    (.seq (plus wsp)
      (.seq (.rep (.seq (chr '(') (.seq (.grp 2 (litCI "Thursday"))
          (.seq (chr ')') (plus wsp)))) 0 (some 1) false)
        (.seq (chr '(')
          (.seq (.alt (litCI "Wk") (.alt (litCI "Wkly") (litCI "Weeklys")))
            (.seq (star wsp) (.seq (.grp 3 digit) (chr ')'))))))))

/-- The `NUM`-shaped group body `\d+(?:\.\d+)?`. -/
def intFracRE : RE :=
  .seq (plus digit) (opt (.seq (chr '.') (plus digit)))

/-- `r'\b(\d+(?:\.\d+)?)\s+(PUT|CALL)\b'` (line 126). -/
def strikeRE : RE :=
  .seq .wb (.seq (.grp 1 intFracRE)
    (.seq (plus wsp) (.seq (.grp 2 (.alt (lit "PUT") (lit "CALL"))) .wb)))

/-- `r'@\s*([0-9]+(?:\.[0-9]+)?|\.[0-9]+)(?=\s*[A-Z]|,|$)'` (line 132). -/
def priceRE : RE :=
  .seq (chr '@') (.seq (star wsp)
    (.seq (.grp 1 (.alt intFracRE (.seq (chr '.') (plus digit))))
      (.la (.alt (.seq (star wsp) upper) (.alt (chr ',') .eos)))))

/-- `r'[A-Z ]*MARK=([0-9]*\.?[0-9]+)\b'` (line 137). -/
def markRE : RE :=
  .seq (star (.cls (fun c => (65 ≤ c.toNat && c.toNat ≤ 90) || c = ' ')))
    (.seq (lit "MARK=")
      (.seq (.grp 1 (.seq (star digit) (.seq (opt (chr '.')) (plus digit))))
        .wb))

/-- `r'IMPL\s+VOL=\s*([0-9]+(?:\.[0-9]+)?)\s*%'` (line 142). -/
def implVolRE : RE :=
  .seq (lit "IMPL") (.seq (plus wsp) (.seq (lit "VOL=")
    (.seq (star wsp) (.seq (.grp 1 intFracRE)
      (.seq (star wsp) (chr '%'))))))

/-- `r'ACCOUNT\s+([*0-9A-Z]+)'` (line 147). -/
def accountRE : RE :=
  .seq (lit "ACCOUNT") (.seq (plus wsp)
    (.grp 1 (plus (.cls (fun c =>
      c = '*' || GmailDL.isDigitChar c
        || (65 ≤ c.toNat && c.toNat ≤ 90))))))

/-- The output dict of `parse_trade_subject` (lines 50–65).  `expiry_date`
is carried as the `(year, month, day)` triple behind the source's ISO
string (an injective rendering); `strike`/`price`/`mark`/`impl_vol` as the
`float()` values. -/
structure ParsedFill where
  parse_ok : Bool
  trade_id : Option String
  side : Option String
  qty_signed : Option ℤ
  qty_abs : Option ℤ
  symbol : Option String
  contract_multiplier : Option String
  expiry_date : Option (Nat × Nat × Nat)
  strike : Option ℚ
  option_type : Option String
  price : Option ℚ
  underlying_mark : Option ℚ
  impl_vol : Option ℚ
  account : Option String
deriving DecidableEq, Repr

/-- The dict as initialised at lines 50–65: every value `None`,
`parse_ok` false. -/
def initFill : ParsedFill :=
  { parse_ok := false
    trade_id := none
    side := none
    qty_signed := none
    qty_abs := none
    symbol := none
    contract_multiplier := none
    expiry_date := none
    strike := none
    option_type := none
    price := none
    underlying_mark := none
    impl_vol := none
    account := none }

/-- The exact key set of the returned dict (lines 50–65); in particular
there is no `"fail_reason"` key in this parser's output. -/
def outputKeys : List String :=
  ["parse_ok", "trade_id", "side", "qty_signed", "qty_abs", "symbol",
   "contract_multiplier", "expiry_date", "strike", "option_type", "price",
   "underlying_mark", "impl_vol", "account"]

/-- Python `s.strip(chars)` / `s.strip()` on a character list. -/
def stripBy (p : Char → Bool) (cs : List Char) : List Char :=
  ((cs.dropWhile p).reverse.dropWhile p).reverse

/-- `date(y, m, d)` inside the `try` at lines 109–112: the date triple
when the Gregorian constructor accepts it, else `none` (ValueError,
caught by the caller). -/
def mkDate? (y : ℤ) (m : Nat) (d : ℤ) : Option (Nat × Nat × Nat) :=
  if 1 ≤ y && y ≤ 9999 && 1 ≤ m && m ≤ 12 && 1 ≤ d
      && d ≤ (daysInMonth y.toNat m : ℤ) then
    some (y.toNat, m, d.toNat)
  else none

/-- Python truthiness of an optional string (`None` and `""` falsy). -/
def truthyOptStr : Option String → Bool
  | some s => s ≠ ""
  | none => false

/-- Python truthiness of an optional int (`None` and `0` falsy). -/
def truthyOptInt : Option ℤ → Bool
  | some v => v ≠ 0
  | none => false

/-- Python truthiness of an optional float (`None` and `0.0` falsy). -/
def truthyOptQ : Option ℚ → Bool
  | some v => v ≠ 0
  | none => false

/-- The `core_ok = all([...])` completeness test (lines 152–155), with
Python truthiness: a present but zero-valued `qty_abs`, `strike` or
`price` fails the test exactly like a missing one. -/
def coreOk (out : ParsedFill) : Bool :=
  truthyOptStr out.trade_id && truthyOptStr out.side
    && truthyOptInt out.qty_abs && truthyOptStr out.symbol
    && truthyOptQ out.strike && truthyOptStr out.option_type
    && truthyOptQ out.price

/-- The symbol stage (tos_trade_parser.py lines 90–103): main pattern,
then the fallback. -/
def symbolStage (out0 : ParsedFill) (s : List Char) : ParsedFill :=
  match search symbolRE s with
  | some (_, caps, _) =>
    { out0 with
      symbol := (capOf caps 1).map
        (fun (cs : List Char) => String.mk (cs.dropWhile (fun c => c = '/')))
      contract_multiplier := (capOf caps 2).map String.mk }
  | none =>
    match search symbolFallbackRE s with
    | some (_, caps, _) =>
      { out0 with symbol := (capOf caps 1).map String.mk }
    | none => out0

/-- The explicit-day expiry stage (lines 105–114); `Except.error` models
the unprotected `int()` calls raising. -/
def expiryAStage (s : List Char) : Except Unit (Option (Nat × Nat × Nat)) :=
  match search expiryDayRE s with
  | some (_, caps, _) =>
    match capOf caps 1, capOf caps 2, capOf caps 3 with
    | some dcs, some moncs, some yycs =>
      match pyInt? (String.mk dcs), pyInt? (String.mk yycs) with
      | some d, some yy =>
        match monthsLookup (String.mk (moncs.map Char.toUpper)) with
        | some mn => .ok (mkDate? (2000 + yy) mn d)
        | none => .ok none
      | _, _ => .error ()
    | _, _, _ => .error ()
  | none => .ok none

/-- The weekly-expiry stage (lines 116–124), taken when the explicit-day
stage produced no date. -/
def expiryBStage (expA : Option (Nat × Nat × Nat)) (s : List Char) :
    Except Unit (Option (Nat × Nat × Nat)) :=
  match expA with
  | some e => pure (some e)
  | none =>
    match search weeklyRE s with
    | some (_, caps, _) =>
      match capOf caps 1, capOf caps 3 with
      | some g1, some g3 =>
        parse_weekly_expiry (String.mk g1) (String.mk g3)
          ((capOf caps 2).map String.mk)
      | _, _ => .error ()
    | none => pure none

/-- The strike/option-type stage (lines 126–130). -/
def strikeStage (out2 : ParsedFill) (s : List Char) : Except Unit ParsedFill :=
  match search strikeRE s with
  | some (_, caps, _) =>
    match capOf caps 1 with
    | some g1 =>
      match pyFloat? (String.mk g1) with
      | some v =>
        pure { out2 with
          strike := some v
          option_type := (capOf caps 2).map
            (fun (cs : List Char) => String.mk (cs.map Char.toUpper)) }
      | none => .error ()
    | none => .error ()
  | none => pure out2

/-- The price stage (lines 132–135). -/
def priceStage (out3 : ParsedFill) (s : List Char) : Except Unit ParsedFill :=
  match search priceRE s with
  | some (_, caps, _) =>
    match capOf caps 1 with
    | some g1 =>
      match pyFloat? (String.mk g1) with
      | some v => pure { out3 with price := some v }
      | none => .error ()
    | none => .error ()
  | none => pure out3

/-- The underlying-mark stage (lines 137–140). -/
def markStage (out4 : ParsedFill) (s : List Char) : Except Unit ParsedFill :=
  match search markRE s with
  | some (_, caps, _) =>
    match capOf caps 1 with
    | some g1 =>
      match pyFloat? (String.mk g1) with
      | some v => pure { out4 with underlying_mark := some v }
      | none => .error ()
    | none => .error ()
  | none => pure out4

/-- The implied-volatility stage (lines 142–145). -/
def ivStage (out5 : ParsedFill) (s : List Char) : Except Unit ParsedFill :=
  match search implVolRE s with
  | some (_, caps, _) =>
    match capOf caps 1 with
    | some g1 =>
      match pyFloat? (String.mk g1) with
      | some v => pure { out5 with impl_vol := some v }
      | none => .error ()
    | none => .error ()
  | none => pure out5

/-- The account stage (lines 147–150). -/
def accountStage (out6 : ParsedFill) (s : List Char) : ParsedFill :=
  match search accountRE s with
  | some (_, caps, _) =>
    { out6 with account := (capOf caps 1).map String.mk }
  | none => out6

/-- Lines 90–157 of `parse_trade_subject`: everything after the side and
quantity have been bound — symbol, expiry (explicit-day path, then weekly
path), strike/type, price, mark, implied vol, account, and the final
completeness flag. -/
def stageAfterQty (out0 : ParsedFill) (s : List Char) :
    Except Unit ParsedFill := do
  let out1 := symbolStage out0 s
  let expA ← expiryAStage s
  let expiry ← expiryBStage expA s
  let out2 := { out1 with expiry_date := expiry }
  let out3 ← strikeStage out2 s
  let out4 ← priceStage out3 s
  let out5 ← markStage out4 s
  let out6 ← ivStage out5 s
  let out7 := accountStage out6 s
  pure { out7 with parse_ok := coreOk out7 }

/-- The preprocessing of `parse_trade_subject` (tos_trade_parser.py lines
52–57): strip, quote strip, `tIP` removal, whitespace squashing. -/
def preprocess (subject : String) : List Char :=
  subAll wsRunRE [' ']
    (subAll tipRE []
      (stripBy (fun c => c = '"') (stripBy Char.isWhitespace subject.data)))

/-- The record after the trade-id stage (tos_trade_parser.py lines
62–66). -/
def tidFill (s : List Char) : ParsedFill :=
  match search tradeIdRE s with
  | some (_, caps, _) =>
    { initFill with trade_id := (capOf caps 1).map String.mk }
  | none => initFill

/-- Side and quantity (tos_trade_parser.py lines 68–88): early
`return out` when the side/qty pattern or `SIDE_MAP` misses or `int()`
fails inside its `try` — `qty_signed = qty_abs if side == "BUY" else
-qty_abs` — then the remaining stages. -/
def afterTid (out1 : ParsedFill) (s : List Char) : Except Unit ParsedFill :=
  match search sideQtyRE s with
  | none => .ok out1
  | some (_, caps, _) =>
    match capOf caps 1, capOf caps 2 with
    | some sideCs, some qtyCs =>
      match sideMapLookup (String.mk sideCs) with
      | none => .ok out1
      | some side =>
        match pyInt? (String.mk qtyCs) with
        | none => .ok out1
        | some qty_val =>
          stageAfterQty
            { out1 with
              side := some side
              qty_abs := some |qty_val|
              qty_signed :=
                some (if side = "BUY" then |qty_val| else -|qty_val|) } s
    | _, _ => .error ()

/-- `parse_trade_subject` (tos_trade_parser.py lines 45–157):
preprocessing, trade id, side and quantity, then the remaining fields and
the completeness flag. -/
def parse_trade_subject (subject : String) : Except Unit ParsedFill :=
  afterTid (tidFill (preprocess subject)) (preprocess subject)

end TosTradeParser

namespace SubjectParser

open GmailDL Re

/-- `MONTHS` (subject_parser.py lines 15–18). -/
def MONTHS : List (String × Nat) :=
  [("JAN", 1), ("FEB", 2), ("MAR", 3), ("APR", 4), ("MAY", 5), ("JUN", 6),
   ("JUL", 7), ("AUG", 8), ("SEP", 9), ("OCT", 10), ("NOV", 11), ("DEC", 12)]

/-- `mon in MONTHS` / `MONTHS[mon]`. -/
def monthsLookup (s : String) : Option Nat :=
  (MONTHS.find? (fun p => p.1 = s)).map (fun p => p.2)

/-- `_to_float` (lines 20–26): `float()` inside a `try`, `None` on
failure. -/
def toFloat? (s : Option String) : Option ℚ :=
  match s with
  | none => none
  | some t => pyFloat? t

/-- `_iso_date` (lines 28–38): the `f"{y:04d}-{m:02d}-{d:02d}"` date as
its `(y, m, d)` triple (an injective rendering; no calendar validation is
performed by the source), `None` when the month is unknown or a
conversion raises inside the `try`. -/
def iso_date (day mon yy : String) : Option (Nat × Nat × Nat) :=
  match monthsLookup (String.mk (mon.data.map Char.toUpper)) with
  | none => none
  | some m =>
    match pyInt? yy, pyInt? day with
    | some y, some d => some ((2000 + y).toNat, m, d.toNat)
    | _, _ => none

/-- `_normalize_side` (lines 40–42). -/
def normalize_side (side_raw : String) : String :=
  if side_raw = "BOT" then "BUY" else "SELL"

/-- `NUM = r"(?:\d+(?:\.\d+)?|\.\d+)"` (line 9). -/
def numRE : RE :=
  .alt (.seq (plus digit) (opt (.seq (chr '.') (plus digit))))
    (.seq (chr '.') (plus digit))

/-- `MARK_PREFIX = r"(?:[A-Z]+(?:\s+[A-Z]+)*)?MARK="` (line 13). -/
def markPrefixRE : RE :=
  .seq (.rep (.seq (plus upper) (star (.seq (plus wsp) (plus upper))))
      0 (some 1) false)
    (lit "MARK=")

/-- `(?:[A-Za-z]+\s+)*?` — the lazy leading-noise skipper. -/
def noiseRE : RE :=
  .rep (.seq (plus (.cls (fun c => (65 ≤ c.toNat && c.toNat ≤ 90)
    || (97 ≤ c.toNat && c.toNat ≤ 122)))) (plus wsp)) 0 none true

/-- Concatenation of a pattern list (a trailing `eps` is harmless). -/
def cat (l : List RE) : RE := l.foldr .seq .eps

/-- The shared tail
`\s*{MARK_PREFIX}(mark)\s+IMPL VOL=(iv)%\s*,\s*ACCOUNT\s+(account)\s*$`
of both verbose patterns, with the `mark`, `iv`, `account` capture
numbers passed in. -/
def tailRE (markN ivN acctN : Nat) : RE :=
  cat [star wsp, markPrefixRE, .grp markN numRE, plus wsp, lit "IMPL VOL=",
    .grp ivN numRE, chr '%', star wsp, chr ',', star wsp, lit "ACCOUNT",
    plus wsp, .grp acctN (.rep dot 1 none true), star wsp, .eos]

/-- `[A-Z0-9]`. -/
def upperDigit : RE :=
  .cls (fun c => (65 ≤ c.toNat && c.toNat ≤ 90) || GmailDL.isDigitChar c)

/-- `EQUITY_RE` (subject_parser.py lines 47–64); capture groups numbered
in source order: 1 trade_id, 2 side_raw, 3 qty, 4 instrument,
5 contract_code, 6 day, 7 mon, 8 yy, 9 strike, 10 option_type, 11 price,
12 mark, 13 iv, 14 account. -/
def EQUITY_RE : RE :=
  cat [chr '#', .grp 1 (plus digit), plus wsp, noiseRE,
    .grp 2 (.alt (lit "BOT") (lit "SOLD")), plus wsp,
    .grp 3 (.seq (opt (.cls (fun c => c = '+' || c = '-'))) (plus digit)),
    plus wsp, .grp 4 (plus upper), plus wsp, .grp 5 (plus digit),
    .rep (.seq (plus wsp) (lit "(Weeklys)")) 0 (some 1) false, plus wsp,
    .grp 6 (.rep digit 1 (some 2) false), plus wsp,
    .grp 7 (.rep upper 3 (some 3) false), plus wsp,
    .grp 8 (.rep digit 2 (some 2) false), plus wsp,
    .grp 9 numRE, plus wsp, .grp 10 (.alt (lit "PUT") (lit "CALL")),
    star wsp, chr '@', star wsp, .grp 11 numRE, tailRE 12 13 14]

/-- `FUT_OPT_RE` (subject_parser.py lines 67–84); capture groups:
1 trade_id, 2 side_raw, 3 qty, 4 future_ct, 5 contract_code, 6 mon, 7 yy,
8 opt_root, 9 strike, 10 option_type, 11 price, 12 mark, 13 iv,
14 account. -/
def FUT_OPT_RE : RE :=
  cat [chr '#', .grp 1 (plus digit), plus wsp, noiseRE,
    .grp 2 (.alt (lit "BOT") (lit "SOLD")), plus wsp,
    .grp 3 (.seq (opt (.cls (fun c => c = '+' || c = '-'))) (plus digit)),
    plus wsp,
    .grp 4 (cat [chr '/', .rep upper 1 (some 3) false,
      .cls (fun c => "FGHJKMNQUVXZ".data.contains c),
      .rep digit 2 (some 2) false]),
    plus wsp,
    .grp 5 (cat [plus digit, chr '/', plus digit]), plus wsp,
    .grp 6 (.rep upper 3 (some 3) false), plus wsp,
    .grp 7 (.rep digit 2 (some 2) false),
    star (cat [plus wsp, chr '(', plus (.cls (fun c => c ≠ ')')), chr ')']),
    plus wsp,
    .grp 8 (.seq (chr '/') (plus upperDigit)), plus wsp,
    .grp 9 numRE, plus wsp, .grp 10 (.alt (lit "PUT") (lit "CALL")),
    star wsp, chr '@', star wsp, .grp 11 numRE, tailRE 12 13 14]

/-- The output dict of `parse_trade_subject` (subject_parser.py lines
102–119 / 136–152 / 170–186).  `option_date` carries the `(y, m, d)`
triple behind the formatted string. -/
structure SubjParsed where
  parsed : Bool
  parse_ok : Bool
  trade_id : Option String
  side : Option String
  qty : Option ℤ
  signed_qty : Option ℤ
  instrument : Option String
  contract_code : Option String
  option_date : Option (Nat × Nat × Nat)
  strike : Option ℚ
  option_type : Option String
  price : Option ℚ
  mark : Option ℚ
  implied_vol : Option ℚ
  account : Option String
deriving DecidableEq, Repr

/-- `_empty(False)` (lines 102–119). -/
def emptyParsed : SubjParsed :=
  { parsed := false
    parse_ok := false
    trade_id := none
    side := none
    qty := none
    signed_qty := none
    instrument := none
    contract_code := none
    option_date := none
    strike := none
    option_type := none
    price := none
    mark := none
    implied_vol := none
    account := none }

/-- The exact key set of every dict this parser returns (lines 102–119,
136–152, 170–186); there is no `"fail_reason"` key. -/
def outputKeys : List String :=
  ["parsed", "parse_ok", "trade_id", "side", "qty", "signed_qty",
   "instrument", "contract_code", "option_date", "strike", "option_type",
   "price", "mark", "implied_vol", "account"]

/-- The successful-equity-match record (subject_parser.py lines 129–158);
`Except.error` models the uncaught exception of `int(g["qty"])` on a
non-numeric token (the regex makes that unreachable). -/
def fromEquityCaps (caps : Caps) : Except Unit SubjParsed :=
  match capOf caps 2, capOf caps 3 with
  | some sideCs, some qtyCs =>
    match pyInt? (String.mk qtyCs) with
    | none => .error ()
    | some qty_raw =>
      .ok
        { parsed := true
          parse_ok := true
          trade_id := (capOf caps 1).map String.mk
          side := some (normalize_side (String.mk sideCs))
          qty := some |qty_raw|
          signed_qty :=
            some (if normalize_side (String.mk sideCs) = "BUY"
              then |qty_raw| else -|qty_raw|)
          instrument := (capOf caps 4).map String.mk
          contract_code := (capOf caps 5).map String.mk
          option_date :=
            iso_date (String.mk ((capOf caps 6).getD []))
              (String.mk ((capOf caps 7).getD []))
              (String.mk ((capOf caps 8).getD []))
          strike := toFloat? ((capOf caps 9).map String.mk)
          option_type := (capOf caps 10).map String.mk
          price := toFloat? ((capOf caps 11).map String.mk)
          mark := toFloat? ((capOf caps 12).map String.mk)
          implied_vol := toFloat? ((capOf caps 13).map String.mk)
          account := (capOf caps 14).map
            (fun (cs : List Char) =>
              String.mk (TosTradeParser.stripBy Char.isWhitespace cs)) }
  | _, _ => .error ()

/-- The successful-futures-option-match record (subject_parser.py lines
163–186). -/
def fromFutCaps (caps : Caps) : Except Unit SubjParsed :=
  match capOf caps 2, capOf caps 3 with
  | some sideCs, some qtyCs =>
    match pyInt? (String.mk qtyCs) with
    | none => .error ()
    | some qty_raw =>
      .ok
        { parsed := true
          parse_ok := true
          trade_id := (capOf caps 1).map String.mk
          side := some (normalize_side (String.mk sideCs))
          qty := some |qty_raw|
          signed_qty :=
            some (if normalize_side (String.mk sideCs) = "BUY"
              then |qty_raw| else -|qty_raw|)
          instrument := (capOf caps 4).map
            (fun (cs : List Char) =>
              String.mk (cs.dropWhile (fun c => c = '/')))
          contract_code := (capOf caps 5).map String.mk
          option_date := none
          strike := toFloat? ((capOf caps 9).map String.mk)
          option_type := (capOf caps 10).map String.mk
          price := toFloat? ((capOf caps 11).map String.mk)
          mark := toFloat? ((capOf caps 12).map String.mk)
          implied_vol := toFloat? ((capOf caps 13).map String.mk)
          account := (capOf caps 14).map
            (fun (cs : List Char) =>
              String.mk (TosTradeParser.stripBy Char.isWhitespace cs)) }
  | _, _ => .error ()

/-- `parse_trade_subject` (subject_parser.py lines 88–189):
`EQUITY_RE.match`, then `FUT_OPT_RE.match`, then the empty record. -/
def parse_trade_subject (subject : String) : Except Unit SubjParsed :=
  match firstMatch (fuelFor (TosTradeParser.stripBy Char.isWhitespace
      subject.data)) EQUITY_RE
      (TosTradeParser.stripBy Char.isWhitespace subject.data) none with
  | some (_, _, caps) => fromEquityCaps caps
  | none =>
    match firstMatch (fuelFor (TosTradeParser.stripBy Char.isWhitespace
        subject.data)) FUT_OPT_RE
        (TosTradeParser.stripBy Char.isWhitespace subject.data) none with
    | some (_, _, caps) => fromFutCaps caps
    | none => .ok emptyParsed

end SubjectParser

namespace Scenarios

/-- A subject line whose quantity token carries an explicit minus sign on
a BUY side token. -/
def c4subject : String :=
  "#123 BOT -2 SPY 100 17 MAY 24 500 PUT @.12MARK=520.79 IMPL VOL=13.29% , ACCOUNT *****0960"

/-- A subject line missing only the `@price` token. -/
def c5subject : String :=
  "#12 BOT +2 SPY 100 17 MAY 24 500 PUT MARK=520.79 IMPL VOL=13.29% , ACCOUNT *****0960"

/-- A well-formed subject line whose price token is `0`. -/
def c10subject : String :=
  "#12 BOT +2 SPY 100 17 MAY 24 500 PUT @0MARK=520.79 IMPL VOL=13.29% , ACCOUNT *****0960"

/-- The record the tos parser produces for `c4subject`. -/
def c4tosRec : TosTradeParser.ParsedFill :=
  (TosTradeParser.parse_trade_subject c4subject).toOption.getD
    TosTradeParser.initFill

end Scenarios

-- ===================== THEOREMS =====================

namespace BuildRoundTrips

theorem updG_qty_buy (g : G) (r : Row) :
    (updG g r).qty_buy =
      if r.side = "BUY" then g.qty_buy + rowQtyAbs r else g.qty_buy := by
  simp only [updG]
  split_ifs <;> rfl

theorem updG_qty_sell (g : G) (r : Row) :
    (updG g r).qty_sell =
      if r.side = "SELL" then g.qty_sell + rowQtyAbs r else g.qty_sell := by
  simp only [updG]
  split_ifs with h1 h2 <;> first | rfl | (exact absurd (h1.symm.trans h2) (by decide))

theorem updG_legs (g : G) (r : Row) :
    (updG g r).legs = g.legs ++ [legOfRow r] := by
  simp only [updG]
  split_ifs <;> rfl

theorem legsNet_append (ls : List Leg) (x : Leg) :
    legsNet (ls ++ [x]) = legsNet ls + legNet x := by
  simp [legsNet]

theorem legNet_ofRow (r : Row) :
    legNet (legOfRow r) =
      if r.side = "BUY" then rowQtyAbs r
      else if r.side = "SELL" then - rowQtyAbs r else 0 := by
  simp only [legNet, legOfRow]

theorem updG_net_invariant (g : G) (r : Row)
    (h : g.qty_buy - g.qty_sell = legsNet g.legs) :
    (updG g r).qty_buy - (updG g r).qty_sell = legsNet (updG g r).legs := by
  rw [updG_qty_buy, updG_qty_sell, updG_legs, legsNet_append, legNet_ofRow]
  by_cases hb : r.side = "BUY"
  · have hs : ¬ r.side = "SELL" := by rw [hb]; decide
    simp [hb, hs]
    omega
  · by_cases hs : r.side = "SELL"
    · simp [hb, hs]
      omega
    · simp [hb, hs]
      omega

end BuildRoundTrips

namespace BuildRoundTrips

open GmailDL

theorem assocUpdate_pres {P : G → Prop} (k : AggKey) (f : G → G)
    (hf : ∀ g, P g → P (f g)) (he : P (f emptyG)) :
    ∀ l : List (AggKey × G), (∀ p ∈ l, P p.2) →
      ∀ p ∈ assocUpdate k f l, P p.2
  | [], _, p, hp => by
    simp only [assocUpdate, List.mem_singleton] at hp
    subst hp
    exact he
  | (k', g) :: t, hl, p, hp => by
    simp only [assocUpdate] at hp
    by_cases hk : k' = k
    · simp only [hk, if_true, List.mem_cons] at hp
      rcases hp with h | h
      · subst h
        exact hf g (hl (k', g) (List.mem_cons_self _ _))
      · exact hl p (List.mem_cons_of_mem _ h)
    · simp only [hk, if_false, List.mem_cons] at hp
      rcases hp with h | h
      · subst h
        exact hl (k', g) (List.mem_cons_self _ _)
      · exact assocUpdate_pres k f hf he t
          (fun q hq => hl q (List.mem_cons_of_mem _ hq)) p h

theorem buildGroups_net_invariant (rows : List Row) :
    ∀ p ∈ buildGroups rows, p.2.qty_buy - p.2.qty_sell = legsNet p.2.legs := by
  have main : ∀ (l : List Row) (acc : List (AggKey × G)),
      (∀ p ∈ acc, p.2.qty_buy - p.2.qty_sell = legsNet p.2.legs) →
      ∀ p ∈ l.foldl groupStep acc,
        p.2.qty_buy - p.2.qty_sell = legsNet p.2.legs := by
    intro l
    induction l with
    | nil => intro acc hacc p hp; exact hacc p hp
    | cons r t ih =>
      intro acc hacc p hp
      simp only [List.foldl_cons, groupStep] at hp
      by_cases hr : truthyParse r.parse_ok
      · rw [if_pos hr] at hp
        refine ih _ ?_ p hp
        exact assocUpdate_pres (keyOf r) (fun g => updG g r)
          (fun g hg => updG_net_invariant g r hg)
          (updG_net_invariant emptyG r (by simp [emptyG, legsNet])) acc hacc
      · rw [if_neg hr] at hp
        exact ih acc hacc p hp
  intro p hp
  exact main rows [] (by simp) p hp

theorem mem_finalizeAll (now : Instant) :
    ∀ (rid : Nat) (l : List (AggKey × G)) (rt : RT), rt ∈ finalizeAll now rid l →
      ∃ rid' k g, (k, g) ∈ l ∧ rt = finalizeG now rid' k g
  | rid, [], rt, h => by simp [finalizeAll] at h
  | rid, (k, g) :: t, rt, h => by
    simp only [finalizeAll, List.mem_cons] at h
    rcases h with h | h
    · exact ⟨rid, k, g, List.mem_cons_self _ _, h⟩
    · rcases mem_finalizeAll now (rid + 1) t rt h with ⟨rid', k', g', hm, he⟩
      exact ⟨rid', k', g', List.mem_cons_of_mem _ hm, he⟩

theorem synTrigger_net (now : Instant) (expiry : String) (net : ℤ)
    (s : Instant) (h : synTrigger now expiry net = some s) : net ≠ 0 := by
  by_contra hz
  simp only [synTrigger, hz] at h
  simp at h

theorem finalizeG_syn (now : Instant) (rid : Nat) (k : AggKey) (g : G)
    (hinv : g.qty_buy - g.qty_sell = legsNet g.legs)
    (hs : (finalizeG now rid k g).synthetic_expiration = true) :
    (finalizeG now rid k g).qty_buy - (finalizeG now rid k g).qty_sell ≠ 0 ∧
      legsNet (finalizeG now rid k g).legs = 0 := by
  rcases ht : synTrigger now k.expiry_date (g.qty_buy - g.qty_sell) with _ | sdt
  · exfalso
    simp only [finalizeG, ht] at hs
    exact Bool.false_ne_true hs
  · have hnet := synTrigger_net _ _ _ _ ht
    simp only [finalizeG, ht]
    constructor
    · exact hnet
    · rw [legsNet_append]
      simp only [legNet, syntheticLeg]
      by_cases hp : (0 : ℤ) < g.qty_buy - g.qty_sell
      · have habs : |g.qty_buy - g.qty_sell| = g.qty_buy - g.qty_sell :=
          abs_of_pos hp
        simp only [hp, if_true]
        simp
        omega
      · have hneg : g.qty_buy - g.qty_sell < 0 := by omega
        have habs : |g.qty_buy - g.qty_sell| = -(g.qty_buy - g.qty_sell) :=
          abs_of_neg hneg
        simp only [hp, if_false]
        simp
        omega

end BuildRoundTrips

namespace Claims

open GmailDL BuildRoundTrips RoundTripValidator Scenarios

/-- C2 counterexample: for the single expired `BUY 5` fill of scenario 2
the Aggregator sets `synthetic_expiration = true` yet stores
`qty_buy - qty_sell = 5`, not `0` — the injected synthetic leg is NOT
counted in the stored `qty_buy`/`qty_sell` fields. -/
theorem C2_counterexample :
    (rtFor s2now s2rows s2key).map
        (fun rt => (rt.synthetic_expiration, rt.qty_buy - rt.qty_sell))
      = some (true, 5) ∧ (5 : ℤ) ≠ 0 := by
  constructor
  · decide
  · decide

/-- C2 amended: whenever a produced round trip has
`synthetic_expiration = true`, the stored `qty_buy - qty_sell` is the
(nonzero) pre-injection net — the synthetic leg is only appended to the
`legs` list, where it does make the net signed quantity over all legs
zero. -/
theorem C2_amended (rows : List Row) (now : Instant) (k : AggKey) (rt : RT)
    (h : rtFor now rows k = some rt)
    (hs : rt.synthetic_expiration = true) :
    rt.qty_buy - rt.qty_sell ≠ 0 ∧ legsNet rt.legs = 0 := by
  have hmem : rt ∈ buildRoundTrips now rows := List.mem_of_find?_eq_some h
  rcases mem_finalizeAll now 1 (buildGroups rows) rt hmem with ⟨rid', k', g', hm, he⟩
  have hinv := buildGroups_net_invariant rows (k', g') hm
  subst he
  exact finalizeG_syn now rid' k' g' hinv hs

/-- Witness for C2 amended, at the concrete scenario-2 run. -/
theorem C2_amended_witness :
    rtFor s2now s2rows s2key = some s2rt ∧
      (s2rt.qty_buy - s2rt.qty_sell ≠ 0 ∧ legsNet s2rt.legs = 0) :=
  ⟨by decide, C2_amended s2rows s2now s2key s2rt (by decide) (by decide)⟩

end Claims

namespace Claims

open GmailDL BuildRoundTrips RoundTripValidator Scenarios

/-- C3 counterexample: on exactly the two fills of the claim
(`BUY 10 @ 1.00`, `SELL 10 @ 1.50`, multiplier 100) the Aggregator's
`realized_pnl_cash` is `500.00` — the cashflow is
`1.50·10·100 − 1.00·10·100` — not the claimed `50.00`. -/
theorem C3_counterexample :
    (rtFor s1now s1rows s1key).map RT.realized_pnl_cash = some 500 ∧
      ¬ (rtFor s1now s1rows s1key).map RT.realized_pnl_cash = some 50 := by
  constructor
  · decide
  · decide

/-- C3 amended: for the two fills `BUY 10 @ 1.00` and `SELL 10 @ 1.50` on
the same key with contract multiplier 100, the Aggregator produces one
round trip with `realized_pnl_cash = 500.00`, `buy_vwap = 1.00`,
`sell_vwap = 1.50` and `synthetic_expiration = false`. -/
theorem C3_amended :
    (buildRoundTrips s1now s1rows).length = 1 ∧
      (rtFor s1now s1rows s1key).map
          (fun rt =>
            (rt.realized_pnl_cash, rt.buy_vwap, rt.sell_vwap,
              rt.synthetic_expiration))
        = some (500, some 1, some (Rat.divInt 3 2), false) := by
  constructor
  · decide
  · decide

/-- C1: the Validator run immediately after Aggregation does NOT always
report zero issues — on the ledger the Aggregator builds from the two
scenario-1 fills, the mis-indented recomputation loop compares the stored
aggregates of the whole group against the contribution of the last leg
alone and reports three spurious mismatches. -/
theorem C1_validator_rejects_aggregator_output :
    validate (buildRoundTrips s1now s1rows)
        = some [Issue.qtyBuyMismatch 1 10 0, Issue.grossBuyMismatch 1 10 0,
            Issue.pnlMismatch 1 500 1500] ∧
      ¬ validate (buildRoundTrips s1now s1rows) = some [] := by
  constructor
  · decide
  · decide

end Claims

namespace Claims

open GmailDL BuildRoundTrips Scenarios

/-- C7: the multiplier correction applies its rules in priority order —
`/ES` futures force 50, else SPX/SPY force 100, else the parsed value is
kept, which defaults to 1 when the cell is absent or unparseable — and
consequently two /ES fills with different raw multiplier cells get
multiplier 50 and the same round-trip group key. -/
theorem C7_normalize_multiplier :
    (∀ (symbol : String) (root : Option String) (cm : ℚ),
        root = some "/ES" → normalize_multiplier symbol root cm = 50) ∧
    (∀ (symbol : String) (root : Option String) (cm : ℚ),
        root ≠ some "/ES" → (symbol = "SPX" ∨ symbol = "SPY") →
          normalize_multiplier symbol root cm = 100) ∧
    (∀ (symbol : String) (root : Option String) (cm : ℚ),
        root ≠ some "/ES" → symbol ≠ "SPX" → symbol ≠ "SPY" →
          normalize_multiplier symbol root cm = cm) ∧
    (∀ r : Row, r.contract_multiplier = none → rowRawCm r = 1) ∧
    (∀ r : Row, orNone r.fut_root_symbol = some "/ES" → rowCm r = 50) ∧
    (∀ r1 r2 : Row,
        orNone r1.fut_root_symbol = some "/ES" →
        orNone r2.fut_root_symbol = some "/ES" →
        r1.account = r2.account → r1.symbol = r2.symbol →
        r1.is_option = r2.is_option → r1.expiry_date = r2.expiry_date →
        r1.strike = r2.strike → r1.option_type = r2.option_type →
        keyOf r1 = keyOf r2) := by
  refine ⟨?_, ?_, ?_, ?_, ?_, ?_⟩
  · intro symbol root cm h
    simp [normalize_multiplier, h]
  · intro symbol root cm h hs
    rcases hs with hs | hs <;> simp [normalize_multiplier, h, hs]
  · intro symbol root cm h h1 h2
    simp [normalize_multiplier, h, h1, h2]
  · intro r h
    simp [rowRawCm, h]
  · intro r h
    simp [rowCm, normalize_multiplier, h]
  · intro r1 r2 h1 h2 ha hsym hio hexp hst hot
    simp only [keyOf, rowCm, normalize_multiplier, h1, h2, if_true, ha, hsym,
      hio, hexp, hst, hot]

/-- Witness for C7 at concrete inputs: the two scenario-5 /ES fills, one
with an unparseable multiplier cell and one with raw multiplier 20, both
normalize to 50 and produce the same group key. -/
theorem C7_witness :
    normalize_multiplier "ESM24" (some "/ES") 20 = 50 ∧
      rowCm es1 = 50 ∧ rowCm es2 = 50 ∧ keyOf es1 = keyOf es2 :=
  ⟨C7_normalize_multiplier.1 "ESM24" (some "/ES") 20 rfl,
    C7_normalize_multiplier.2.2.2.2.1 es1 (by decide),
    C7_normalize_multiplier.2.2.2.2.1 es2 (by decide),
    C7_normalize_multiplier.2.2.2.2.2 es1 es2 (by decide) (by decide) rfl rfl
      rfl rfl rfl rfl⟩

end Claims

namespace GmailDL

theorem intQ_eq (n : ℤ) : intQ n = (n : ℚ) := by
  rw [intQ, Rat.divInt_eq_div]
  simp

theorem qadd_eq (a b : ℚ) : qadd a b = a + b := by
  rw [qadd, Rat.divInt_eq_div]
  have hda : ((a.den : ℚ)) ≠ 0 := by exact_mod_cast a.den_nz
  have hdb : ((b.den : ℚ)) ≠ 0 := by exact_mod_cast b.den_nz
  conv_rhs => rw [← Rat.num_div_den a, ← Rat.num_div_den b]
  push_cast
  field_simp

theorem qneg_eq (a : ℚ) : qneg a = -a := by
  rw [qneg, Rat.divInt_eq_div]
  push_cast
  rw [neg_div, Rat.num_div_den]

theorem qsub_eq (a b : ℚ) : qsub a b = a - b := by
  rw [qsub, qadd_eq, qneg_eq, sub_eq_add_neg]

theorem qmul_eq (a b : ℚ) : qmul a b = a * b := by
  rw [qmul, Rat.divInt_eq_div]
  have hda : ((a.den : ℚ)) ≠ 0 := by exact_mod_cast a.den_nz
  have hdb : ((b.den : ℚ)) ≠ 0 := by exact_mod_cast b.den_nz
  conv_rhs => rw [← Rat.num_div_den a, ← Rat.num_div_den b]
  push_cast
  field_simp

end GmailDL

namespace BuildRoundTrips

open GmailDL

theorem updG_buy_value (g : G) (r : Row) :
    (updG g r).buy_value =
      if r.side = "BUY" then qadd g.buy_value (notionalC r) else g.buy_value := by
  simp only [updG, notionalC]
  split_ifs <;> rfl

theorem updG_sell_value (g : G) (r : Row) :
    (updG g r).sell_value =
      if r.side = "SELL" then qadd g.sell_value (notionalC r) else g.sell_value := by
  simp only [updG, notionalC]
  split_ifs with h1 h2 <;> first | rfl | (exact absurd (h1.symm.trans h2) (by decide))

theorem updG_cashflow (g : G) (r : Row) :
    (updG g r).cashflow =
      if r.side = "BUY" then qsub g.cashflow (cashC r)
      else if r.side = "SELL" then qadd g.cashflow (cashC r)
      else g.cashflow := by
  simp only [updG, cashC]
  split_ifs <;> rfl

theorem foldl_applyRow_none (l : List Row) :
    ∀ og : Option G, l.foldl applyRow og = none ↔ l = [] ∧ og = none := by
  induction l with
  | nil => intro og; simp
  | cons r t ih =>
    intro og
    simp only [List.foldl_cons, applyRow, ih]
    simp

theorem foldl_applyRow_char (l : List Row) :
    ∀ (og : Option G) (g : G), l.foldl applyRow og = some g →
      g.qty_buy = (og.getD emptyG).qty_buy
          + ((l.filter (fun r => r.side = "BUY")).map rowQtyAbs).sum ∧
      g.qty_sell = (og.getD emptyG).qty_sell
          + ((l.filter (fun r => r.side = "SELL")).map rowQtyAbs).sum ∧
      g.buy_value = (og.getD emptyG).buy_value
          + ((l.filter (fun r => r.side = "BUY")).map notionalC).sum ∧
      g.sell_value = (og.getD emptyG).sell_value
          + ((l.filter (fun r => r.side = "SELL")).map notionalC).sum ∧
      g.cashflow = (og.getD emptyG).cashflow + (l.map signedCashC).sum := by
  induction l with
  | nil =>
    intro og g h
    simp only [List.foldl_nil] at h
    subst h
    simp
  | cons r t ih =>
    intro og g h
    simp only [List.foldl_cons, applyRow] at h
    rcases ih _ g h with ⟨h1, h2, h3, h4, h5⟩
    rw [Option.getD_some, updG_qty_buy] at h1
    rw [Option.getD_some, updG_qty_sell] at h2
    rw [Option.getD_some, updG_buy_value] at h3
    rw [Option.getD_some, updG_sell_value] at h4
    rw [Option.getD_some, updG_cashflow] at h5
    rw [qadd_eq] at h3 h4 h5
    rw [qsub_eq] at h5
    by_cases hb : r.side = "BUY"
    · have hs : ¬ r.side = "SELL" := by rw [hb]; decide
      rw [if_pos hb] at h1 h3 h5
      rw [if_neg hs] at h2 h4
      refine ⟨?_, ?_, ?_, ?_, ?_⟩ <;>
        simp [List.filter_cons, signedCashC, hb, hs] <;>
        first | omega | linarith
    · by_cases hs : r.side = "SELL"
      · rw [if_neg hb] at h1 h3
        rw [if_pos hs] at h2 h4
        rw [if_neg hb, if_pos hs] at h5
        refine ⟨?_, ?_, ?_, ?_, ?_⟩ <;>
          simp [List.filter_cons, signedCashC, hb, hs] <;>
          first | omega | linarith
      · rw [if_neg hb] at h1 h3
        rw [if_neg hs] at h2 h4
        rw [if_neg hb, if_neg hs] at h5
        refine ⟨?_, ?_, ?_, ?_, ?_⟩ <;>
          simp [List.filter_cons, signedCashC, hb, hs] <;>
          first | omega | linarith

end BuildRoundTrips

namespace BuildRoundTrips

open GmailDL

theorem lookupG_cons (k0 : AggKey) (g0 : G) (t : List (AggKey × G))
    (k : AggKey) :
    lookupG ((k0, g0) :: t) k = if k0 = k then some g0 else lookupG t k := by
  by_cases h : k0 = k
  · rw [if_pos h, lookupG, List.find?_cons_of_pos _ (by simp [h])]
    rfl
  · rw [if_neg h, lookupG, List.find?_cons_of_neg _ (by simp [h])]
    rfl

theorem lookupG_assocUpdate_self (k : AggKey) (f : G → G) :
    ∀ l, lookupG (assocUpdate k f l) k = some (f ((lookupG l k).getD emptyG))
  | [] => by simp [assocUpdate, lookupG, List.find?]
  | (k0, g0) :: t => by
    by_cases h : k0 = k
    · subst h
      simp only [assocUpdate, eq_self_iff_true, if_true]
      rw [lookupG_cons, if_pos rfl, lookupG_cons, if_pos rfl]
      rfl
    · simp only [assocUpdate, if_neg h]
      rw [lookupG_cons, if_neg h, lookupG_assocUpdate_self k f t,
        lookupG_cons, if_neg h]

theorem lookupG_assocUpdate_ne (k : AggKey) (f : G → G) (k' : AggKey)
    (h : ¬ k = k') :
    ∀ l, lookupG (assocUpdate k f l) k' = lookupG l k'
  | [] => by
    simp only [assocUpdate]
    rw [lookupG_cons, if_neg h]
  | (k0, g0) :: t => by
    by_cases h0 : k0 = k
    · subst h0
      simp only [assocUpdate, eq_self_iff_true, if_true]
      rw [lookupG_cons, if_neg h, lookupG_cons, if_neg h]
    · simp only [assocUpdate, if_neg h0]
      rw [lookupG_cons, lookupG_cons]
      by_cases h1 : k0 = k'
      · rw [if_pos h1, if_pos h1]
      · rw [if_neg h1, if_neg h1]
        exact lookupG_assocUpdate_ne k f k' h t

theorem lookupG_foldl_groupStep (l : List Row) :
    ∀ (acc : List (AggKey × G)) (k : AggKey),
      lookupG (l.foldl groupStep acc) k
        = (l.filter (fun r => truthyParse r.parse_ok && keyOf r = k)).foldl
            applyRow (lookupG acc k) := by
  induction l with
  | nil => intro acc k; simp
  | cons r t ih =>
    intro acc k
    simp only [List.foldl_cons, List.filter_cons, groupStep]
    by_cases hok : truthyParse r.parse_ok
    · by_cases hk : keyOf r = k
      · have hpred : (truthyParse r.parse_ok && decide (keyOf r = k)) = true := by
          simp [hok, hk]
        rw [if_pos hok, hpred, if_pos rfl, ih, List.foldl_cons]
        subst hk
        rw [lookupG_assocUpdate_self]
        rfl
      · have hpred : (truthyParse r.parse_ok && decide (keyOf r = k)) = false := by
          simp [hok, hk]
        rw [if_pos hok, hpred, if_neg Bool.false_ne_true, ih,
          lookupG_assocUpdate_ne (keyOf r) _ k hk]
    · have hpred : (truthyParse r.parse_ok && decide (keyOf r = k)) = false := by
        simp [hok]
      rw [if_neg hok, hpred, if_neg Bool.false_ne_true, ih]

theorem lookupG_buildGroups (rows : List Row) (k : AggKey) :
    lookupG (buildGroups rows) k = (rowsForKey rows k).foldl applyRow none := by
  rw [buildGroups, lookupG_foldl_groupStep, rowsForKey]
  rfl

theorem finalizeG_proj (now : Instant) (rid : Nat) (k : AggKey) (g : G) :
    (finalizeG now rid k g).key = k ∧
    (finalizeG now rid k g).qty_buy = g.qty_buy ∧
    (finalizeG now rid k g).qty_sell = g.qty_sell ∧
    (finalizeG now rid k g).buy_vwap = vwap g.qty_buy g.buy_value ∧
    (finalizeG now rid k g).sell_vwap = vwap g.qty_sell g.sell_value ∧
    (finalizeG now rid k g).realized_pnl_cash = roundHalfUp 2 g.cashflow := by
  rcases ht : synTrigger now k.expiry_date (g.qty_buy - g.qty_sell) with _ | sdt <;>
    simp [finalizeG, ht]

theorem find?_finalizeAll (now : Instant) (k : AggKey) :
    ∀ (gs : List (AggKey × G)) (rid0 : Nat), ∃ rid,
      (finalizeAll now rid0 gs).find? (fun rt => rt.key = k)
        = (lookupG gs k).map (finalizeG now rid k)
  | [], rid0 => ⟨rid0, by simp [finalizeAll, lookupG, List.find?]⟩
  | (k0, g0) :: t, rid0 => by
    by_cases h : k0 = k
    · refine ⟨rid0, ?_⟩
      subst h
      have hk : (finalizeG now rid0 k0 g0).key = k0 :=
        (finalizeG_proj now rid0 k0 g0).1
      simp [finalizeAll, lookupG, List.find?, hk]
    · rcases find?_finalizeAll now k t (rid0 + 1) with ⟨rid, hrid⟩
      refine ⟨rid, ?_⟩
      have hk : (finalizeG now rid0 k0 g0).key = k0 :=
        (finalizeG_proj now rid0 k0 g0).1
      simp only [finalizeAll]
      rw [List.find?_cons_of_neg _ (by simp [hk, h]), hrid,
        lookupG_cons, if_neg h]

end BuildRoundTrips

namespace Claims

open GmailDL BuildRoundTrips

/-- C9: running the Aggregator on any permutation of the fill rows yields,
for each identity key, the same stored `qty_buy`, `qty_sell`, `buy_vwap`,
`sell_vwap` and `realized_pnl_cash`. -/
theorem C9_permutation_invariance (rows rows' : List Row) (now : Instant)
    (hperm : rows.Perm rows') (k : AggKey) :
    (rtFor now rows k).map fields5 = (rtFor now rows' k).map fields5 := by
  rcases find?_finalizeAll now k (buildGroups rows) 1 with ⟨rid1, h1⟩
  rcases find?_finalizeAll now k (buildGroups rows') 1 with ⟨rid2, h2⟩
  rw [rtFor, buildRoundTrips, h1, rtFor, buildRoundTrips, h2,
    lookupG_buildGroups, lookupG_buildGroups]
  have hp : (rowsForKey rows k).Perm (rowsForKey rows' k) := hperm.filter _
  by_cases hnil : rowsForKey rows k = []
  · have hlen : (rowsForKey rows' k).length = 0 := by
      rw [← hp.length_eq, hnil]
      rfl
    have hnil' : rowsForKey rows' k = [] := List.length_eq_zero.mp hlen
    rw [hnil, hnil']
    rfl
  · have hnil' : rowsForKey rows' k ≠ [] := by
      intro hh
      exact hnil (List.length_eq_zero.mp (by rw [hp.length_eq, hh]; rfl))
    obtain ⟨g, hg⟩ : ∃ g, (rowsForKey rows k).foldl applyRow none = some g := by
      rcases hfold : (rowsForKey rows k).foldl applyRow none with _ | g
      · rw [foldl_applyRow_none] at hfold
        exact absurd hfold.1 hnil
      · exact ⟨g, rfl⟩
    obtain ⟨g', hg'⟩ : ∃ g', (rowsForKey rows' k).foldl applyRow none = some g' := by
      rcases hfold : (rowsForKey rows' k).foldl applyRow none with _ | g'
      · rw [foldl_applyRow_none] at hfold
        exact absurd hfold.1 hnil'
      · exact ⟨g', rfl⟩
    rw [hg, hg']
    rcases foldl_applyRow_char _ _ _ hg with ⟨a1, a2, a3, a4, a5⟩
    rcases foldl_applyRow_char _ _ _ hg' with ⟨b1, b2, b3, b4, b5⟩
    simp only [Option.getD_none, emptyG, zero_add] at a1 a2 a3 a4 a5 b1 b2 b3 b4 b5
    have sQB : (((rowsForKey rows k).filter (fun r => r.side = "BUY")).map
          rowQtyAbs).sum
        = (((rowsForKey rows' k).filter (fun r => r.side = "BUY")).map
          rowQtyAbs).sum := ((hp.filter _).map _).sum_eq
    have sQS : (((rowsForKey rows k).filter (fun r => r.side = "SELL")).map
          rowQtyAbs).sum
        = (((rowsForKey rows' k).filter (fun r => r.side = "SELL")).map
          rowQtyAbs).sum := ((hp.filter _).map _).sum_eq
    have sBV : (((rowsForKey rows k).filter (fun r => r.side = "BUY")).map
          notionalC).sum
        = (((rowsForKey rows' k).filter (fun r => r.side = "BUY")).map
          notionalC).sum := ((hp.filter _).map _).sum_eq
    have sSV : (((rowsForKey rows k).filter (fun r => r.side = "SELL")).map
          notionalC).sum
        = (((rowsForKey rows' k).filter (fun r => r.side = "SELL")).map
          notionalC).sum := ((hp.filter _).map _).sum_eq
    have sCF : ((rowsForKey rows k).map signedCashC).sum
        = ((rowsForKey rows' k).map signedCashC).sum := (hp.map _).sum_eq
    have gq : g.qty_buy = g'.qty_buy := by rw [a1, b1, sQB]
    have gs : g.qty_sell = g'.qty_sell := by rw [a2, b2, sQS]
    have gbv : g.buy_value = g'.buy_value := by rw [a3, b3, sBV]
    have gsv : g.sell_value = g'.sell_value := by rw [a4, b4, sSV]
    have gcf : g.cashflow = g'.cashflow := by rw [a5, b5, sCF]
    rcases finalizeG_proj now rid1 k g with ⟨_, p1b, p1c, p1d, p1e, p1f⟩
    rcases finalizeG_proj now rid2 k g' with ⟨_, p2b, p2c, p2d, p2e, p2f⟩
    simp only [Option.map_some']
    congr 1
    simp only [fields5, p1b, p1c, p1d, p1e, p1f, p2b, p2c, p2d, p2e, p2f,
      gq, gs, gbv, gsv, gcf]

/-- Witness for C9: the two scenario-1 fills in both orders. -/
theorem C9_witness :
    [Scenarios.s1buy, Scenarios.s1sell].Perm [Scenarios.s1sell, Scenarios.s1buy] ∧
      (rtFor Scenarios.s1now [Scenarios.s1buy, Scenarios.s1sell]
          Scenarios.s1key).map fields5
        = (rtFor Scenarios.s1now [Scenarios.s1sell, Scenarios.s1buy]
          Scenarios.s1key).map fields5 :=
  ⟨List.Perm.swap _ _ _,
    C9_permutation_invariance _ _ Scenarios.s1now (List.Perm.swap _ _ _)
      Scenarios.s1key⟩

end Claims

namespace GmailDL

theorem daysInMonth_le (y m : Nat) : daysInMonth y m ≤ 31 := by
  unfold daysInMonth
  split <;> first | omega | (split <;> omega)

theorem digitsVal_aux_lt (cs : List Char) :
    cs.all isDigitChar = true →
    ∀ acc : Nat,
      cs.foldl (fun n c => n * 10 + (c.toNat - 48)) acc
        < (acc + 1) * 10 ^ cs.length := by
  induction cs with
  | nil => intro _ acc; simp
  | cons c t ih =>
    intro h acc
    simp only [List.all_cons, Bool.and_eq_true] at h
    have hc : c.toNat - 48 ≤ 9 := by
      have := h.1
      simp only [isDigitChar, Bool.and_eq_true, decide_eq_true_eq] at this
      omega
    simp only [List.foldl_cons, List.length_cons]
    have h1 : acc * 10 + (c.toNat - 48) + 1 ≤ (acc + 1) * 10 := by omega
    calc t.foldl (fun n c => n * 10 + (c.toNat - 48)) (acc * 10 + (c.toNat - 48))
        < (acc * 10 + (c.toNat - 48) + 1) * 10 ^ t.length := ih h.2 _
      _ ≤ ((acc + 1) * 10) * 10 ^ t.length := Nat.mul_le_mul_right _ h1
      _ = (acc + 1) * 10 ^ (t.length + 1) := by ring

theorem digitsVal_lt (cs : List Char) (h : cs.all isDigitChar = true) :
    digitsVal cs < 10 ^ cs.length := by
  have h0 := digitsVal_aux_lt cs h 0
  rw [Nat.zero_add, Nat.one_mul] at h0
  exact h0

theorem pyInt?_digits (s : String) (hne : s.data ≠ [])
    (hd : s.data.all isDigitChar = true) :
    pyInt? s = some (digitsVal s.data : ℤ) := by
  rcases hs : s.data with _ | ⟨c, t⟩
  · exact absurd hs hne
  · rw [hs] at hd
    have hc : isDigitChar c = true := by
      simp only [List.all_cons, Bool.and_eq_true] at hd
      exact hd.1
    have h1 : ¬ c = '+' := by
      intro h
      subst h
      exact absurd hc (by decide)
    have h2 : ¬ c = '-' := by
      intro h
      subst h
      exact absurd hc (by decide)
    simp only [pyInt?, hs, if_neg h1, if_neg h2, pyIntCore]
    rw [if_pos (by simp [hd])]

end GmailDL

namespace TosTradeParser

open GmailDL

theorem nthWeekdayAux_succ (y m w n f d c : Nat) :
    nthWeekdayAux y m w n (f + 1) d c =
      if daysInMonth y m < d then none
      else if weekdayOf y m d = w then
        if c + 1 = n then some d else nthWeekdayAux y m w n f (d + 1) (c + 1)
      else nthWeekdayAux y m w n f (d + 1) c := rfl

theorem nthWeekdayAux_char (y m w n : Nat) :
    ∀ (fuel d c : Nat), d + fuel = 32 → 1 ≤ d → c < n →
      nthWeekdayAux y m w n fuel d c
        = ((daysUpTo d (daysInMonth y m + 1 - d)).filter
            (fun x => weekdayOf y m x = w)).get? (n - c - 1) := by
  intro fuel
  induction fuel with
  | zero =>
    intro d c hd h1 hc
    have h0 : daysInMonth y m + 1 - d = 0 := by
      have := daysInMonth_le y m
      omega
    rw [h0]
    simp [daysUpTo, nthWeekdayAux]
  | succ f ih =>
    intro d c hd h1 hc
    rw [nthWeekdayAux_succ]
    by_cases hbig : daysInMonth y m < d
    · have h0 : daysInMonth y m + 1 - d = 0 := by omega
      rw [h0, if_pos hbig]
      simp [daysUpTo]
    · have hsz : daysInMonth y m + 1 - d = (daysInMonth y m - d) + 1 := by
        omega
      have hsz2 : daysInMonth y m - d = daysInMonth y m + 1 - (d + 1) := by
        omega
      rw [if_neg hbig, hsz]
      simp only [daysUpTo]
      rw [List.filter_cons]
      by_cases hw : weekdayOf y m d = w
      · have hfilt : decide (weekdayOf y m d = w) = true := by
          simpa using hw
        rw [if_pos hw, if_pos hfilt]
        by_cases heq : c + 1 = n
        · rw [if_pos heq]
          have h0 : n - c - 1 = 0 := by omega
          rw [h0]
          rfl
        · rw [if_neg heq]
          have hc' : c + 1 < n := by omega
          rw [ih (d + 1) (c + 1) (by omega) (by omega) hc', ← hsz2]
          have hidx : n - c - 1 = (n - (c + 1) - 1) + 1 := by omega
          rw [hidx]
          rfl
      · have hfilt : ¬ decide (weekdayOf y m d = w) = true := by
          simpa using hw
        rw [if_neg hw, if_neg hfilt]
        rw [ih (d + 1) c (by omega) (by omega) hc, ← hsz2]

theorem nth_weekday_eq_occurrence (y m w n : Nat) (h1 : 1 ≤ y)
    (h2 : y ≤ 9999) (hn : 1 ≤ n) :
    nth_weekday (y : ℤ) m w n
      = ((weekdayOccurrences y m w).get? (n - 1)).map (fun d => (y, m, d)) := by
  rw [nth_weekday, if_neg (by simp; omega)]
  simp only [Int.toNat_natCast]
  rw [nthWeekdayAux_char y m w n 31 1 0 (by omega) (by omega) (by omega)]
  simp only [weekdayOccurrences, Nat.add_sub_cancel, Nat.sub_zero]

end TosTradeParser

namespace Claims

open GmailDL TosTradeParser

/-- C8: for every month token, two-digit year and ordinal `N`, the weekly
expiry resolution returns exactly the `N`-th occurrence of the target
weekday in that month — Friday (weekday 4) by default, Thursday (3) when
the hint contains "Thursday" — and yields no date (the `N`-th entry of the
occurrence list is absent) when the month has no `N`-th such weekday. -/
theorem C8_weekly_expiry_resolution :
    (∀ (y m w n : Nat), 1 ≤ y → y ≤ 9999 → 1 ≤ n →
      nth_weekday (y : ℤ) m w n
        = ((weekdayOccurrences y m w).get? (n - 1)).map
            (fun d => (y, m, d))) ∧
    (∀ (s wkS : String) (monCs yrCs : List Char) (hint : Option String)
        (month : Nat),
      wordsOf s.data = [monCs, yrCs] →
      monthsLookup (String.mk (monCs.map Char.toUpper)) = some month →
      yrCs.length = 2 → yrCs.all isDigitChar = true →
      wkS.data.all isDigitChar = true → 1 ≤ digitsVal wkS.data →
      parse_weekly_expiry s wkS hint
        = .ok (((weekdayOccurrences (2000 + digitsVal yrCs) month
              (targetWeekday hint)).get? (digitsVal wkS.data - 1)).map
            (fun d => (2000 + digitsVal yrCs, month, d)))) := by
  constructor
  · exact fun y m w n hy1 hy2 hn => nth_weekday_eq_occurrence y m w n hy1 hy2 hn
  · intro s wkS monCs yrCs hint month hwords hmonth hlen hdig hwdig hwpos
    have hyne : yrCs ≠ [] := by
      intro hh
      rw [hh] at hlen
      simp at hlen
    have hwne : wkS.data ≠ [] := by
      intro hh
      rw [hh] at hwpos
      simp [digitsVal] at hwpos
    have hydata : (String.mk yrCs).data = yrCs := rfl
    have hyint : pyInt? (String.mk yrCs) = some (digitsVal yrCs : ℤ) := by
      apply pyInt?_digits <;> rw [hydata] <;> assumption
    have hwint : pyInt? wkS = some (digitsVal wkS.data : ℤ) :=
      pyInt?_digits wkS hwne hwdig
    have hylen : (String.mk yrCs).length = 2 := by
      simp [String.length, hydata, hlen]
    rw [parse_weekly_expiry]
    rw [hwords]
    simp only [hmonth, hyint, hwint, hylen, if_pos rfl]
    have hbound : digitsVal yrCs < 100 := by
      have := digitsVal_lt yrCs hdig
      rw [hlen] at this
      simpa using this
    have hcast : (2000 + (digitsVal yrCs : ℤ))
        = ((2000 + digitsVal yrCs : ℕ) : ℤ) := by push_cast; ring
    have htn : ((digitsVal wkS.data : ℤ)).toNat = digitsVal wkS.data :=
      Int.toNat_natCast _
    rw [if_pos hlen, hcast, htn,
      nth_weekday_eq_occurrence (2000 + digitsVal yrCs) month
        (targetWeekday hint) (digitsVal wkS.data) (by omega) (by omega) hwpos]

/-- Witness for C8: June 2024 has no fifth Friday, so ordinal 5 resolves to
no date; and "MAY 24" with week 2 and no hint resolves to the second entry
of May 2024's Friday list. -/
theorem C8_witness :
    nth_weekday (2024 : ℤ) 6 4 5
        = ((weekdayOccurrences 2024 6 4).get? 4).map (fun d => (2024, 6, d)) ∧
      parse_weekly_expiry "MAY 24" "2" none
        = .ok (((weekdayOccurrences 2024 5 (targetWeekday none)).get? 1).map
            (fun d => (2024, 5, d))) :=
  ⟨C8_weekly_expiry_resolution.1 2024 6 4 5 (by decide) (by decide) (by decide),
    C8_weekly_expiry_resolution.2 "MAY 24" "2" "MAY".data "24".data none 5
      (by decide) (by decide) (by decide) (by decide) (by decide) (by decide)⟩

end Claims

namespace TosTradeParser

open GmailDL Re

theorem symbolStage_fields (o : ParsedFill) (s : List Char) :
    (symbolStage o s).side = o.side ∧
      (symbolStage o s).qty_signed = o.qty_signed ∧
      (symbolStage o s).qty_abs = o.qty_abs := by
  unfold symbolStage
  repeat' split
  all_goals exact ⟨rfl, rfl, rfl⟩

theorem accountStage_fields (o : ParsedFill) (s : List Char) :
    (accountStage o s).side = o.side ∧
      (accountStage o s).qty_signed = o.qty_signed ∧
      (accountStage o s).qty_abs = o.qty_abs := by
  unfold accountStage
  repeat' split
  all_goals exact ⟨rfl, rfl, rfl⟩

theorem strikeStage_fields (o : ParsedFill) (s : List Char) (r : ParsedFill)
    (h : strikeStage o s = .ok r) :
    r.side = o.side ∧ r.qty_signed = o.qty_signed ∧ r.qty_abs = o.qty_abs := by
  unfold strikeStage at h
  simp only [pure, Except.pure] at h
  repeat' split at h
  all_goals first
    | exact Except.noConfusion h
    | (injection h with h
       subst h
       exact ⟨rfl, rfl, rfl⟩)

theorem priceStage_fields (o : ParsedFill) (s : List Char) (r : ParsedFill)
    (h : priceStage o s = .ok r) :
    r.side = o.side ∧ r.qty_signed = o.qty_signed ∧ r.qty_abs = o.qty_abs := by
  unfold priceStage at h
  simp only [pure, Except.pure] at h
  repeat' split at h
  all_goals first
    | exact Except.noConfusion h
    | (injection h with h
       subst h
       exact ⟨rfl, rfl, rfl⟩)

theorem markStage_fields (o : ParsedFill) (s : List Char) (r : ParsedFill)
    (h : markStage o s = .ok r) :
    r.side = o.side ∧ r.qty_signed = o.qty_signed ∧ r.qty_abs = o.qty_abs := by
  unfold markStage at h
  simp only [pure, Except.pure] at h
  repeat' split at h
  all_goals first
    | exact Except.noConfusion h
    | (injection h with h
       subst h
       exact ⟨rfl, rfl, rfl⟩)

theorem ivStage_fields (o : ParsedFill) (s : List Char) (r : ParsedFill)
    (h : ivStage o s = .ok r) :
    r.side = o.side ∧ r.qty_signed = o.qty_signed ∧ r.qty_abs = o.qty_abs := by
  unfold ivStage at h
  simp only [pure, Except.pure] at h
  repeat' split at h
  all_goals first
    | exact Except.noConfusion h
    | (injection h with h
       subst h
       exact ⟨rfl, rfl, rfl⟩)

theorem stageAfterQty_preserves (out : ParsedFill) (s : List Char)
    (r : ParsedFill) (h : stageAfterQty out s = .ok r) :
    r.side = out.side ∧ r.qty_signed = out.qty_signed ∧
      r.qty_abs = out.qty_abs := by
  unfold stageAfterQty at h
  simp only [bind, Except.bind] at h
  cases hA : expiryAStage s with
  | error e =>
    simp only [hA] at h
    exact Except.noConfusion h
  | ok xA =>
    simp only [hA] at h
    cases hB : expiryBStage xA s with
    | error e =>
    simp only [hB] at h
    exact Except.noConfusion h
    | ok xB =>
      simp only [hB] at h
      cases h3 : strikeStage { symbolStage out s with expiry_date := xB } s with
      | error e =>
    simp only [h3] at h
    exact Except.noConfusion h
      | ok x3 =>
        simp only [h3] at h
        cases h4 : priceStage x3 s with
        | error e =>
    simp only [h4] at h
    exact Except.noConfusion h
        | ok x4 =>
          simp only [h4] at h
          cases h5 : markStage x4 s with
          | error e =>
    simp only [h5] at h
    exact Except.noConfusion h
          | ok x5 =>
            simp only [h5] at h
            cases h6 : ivStage x5 s with
            | error e =>
    simp only [h6] at h
    exact Except.noConfusion h
            | ok x6 =>
              simp only [h6, pure, Except.pure] at h
              injection h with h
              subst h
              obtain ⟨a1, a2, a3⟩ := accountStage_fields x6 s
              obtain ⟨b1, b2, b3⟩ := ivStage_fields x5 s x6 h6
              obtain ⟨c1, c2, c3⟩ := markStage_fields x4 s x5 h5
              obtain ⟨d1, d2, d3⟩ := priceStage_fields x3 s x4 h4
              obtain ⟨e1, e2, e3⟩ :=
                strikeStage_fields { symbolStage out s with
                  expiry_date := xB } s x3 h3
              obtain ⟨f1, f2, f3⟩ := symbolStage_fields out s
              refine ⟨?_, ?_, ?_⟩ <;> simp_all

theorem sideMapLookup_mem (s v : String) (h : sideMapLookup s = some v) :
    v = "BUY" ∨ v = "SELL" := by
  simp only [sideMapLookup, SIDE_MAP, List.find?] at h
  repeat' split at h
  all_goals simp_all

theorem tidFill_fields (s : List Char) :
    (tidFill s).side = none ∧ (tidFill s).qty_signed = none ∧
      (tidFill s).qty_abs = none := by
  unfold tidFill
  split <;> exact ⟨rfl, rfl, rfl⟩

theorem afterTid_sign (out1 : ParsedFill) (s : List Char)
    (r : ParsedFill) (h : afterTid out1 s = .ok r)
    (h1 : out1.side = none) (h2 : out1.qty_signed = none)
    (h3 : out1.qty_abs = none) :
    (r.side = some "BUY" → r.qty_signed = r.qty_abs) ∧
    (r.side = some "SELL" → r.qty_signed = r.qty_abs.map (fun v => -v)) ∧
    (∀ v, r.qty_abs = some v → 0 ≤ v) := by
  unfold afterTid at h
  repeat' split at h
  all_goals first
    | exact Except.noConfusion h
    | (injection h with h
       subst h
       refine ⟨fun hh => ?_, fun hh => ?_, fun v hv => ?_⟩ <;> simp_all)
    | (rcases stageAfterQty_preserves _ _ _ h with ⟨p1, p2, p3⟩
       refine ⟨fun hh => ?_, fun hh => ?_, fun v hv => ?_⟩ <;>
         simp_all [abs_nonneg])

end TosTradeParser

namespace SubjectParser

open GmailDL Re

theorem fromEquityCaps_sign (caps : Caps) (r : SubjParsed)
    (h : fromEquityCaps caps = .ok r) :
    (r.side = some "BUY" → r.signed_qty = r.qty) ∧
    (r.side = some "SELL" → r.signed_qty = r.qty.map (fun v => -v)) ∧
    (∀ v, r.qty = some v → 0 ≤ v) := by
  unfold fromEquityCaps at h
  repeat' split at h
  all_goals first
    | exact Except.noConfusion h
    | (injection h with h
       subst h
       refine ⟨fun hh => ?_, fun hh => ?_, fun v hv => ?_⟩ <;>
         (try simp_all [abs_nonneg]) <;>
         (rw [← hv]
          exact abs_nonneg _))

theorem fromFutCaps_sign (caps : Caps) (r : SubjParsed)
    (h : fromFutCaps caps = .ok r) :
    (r.side = some "BUY" → r.signed_qty = r.qty) ∧
    (r.side = some "SELL" → r.signed_qty = r.qty.map (fun v => -v)) ∧
    (∀ v, r.qty = some v → 0 ≤ v) := by
  unfold fromFutCaps at h
  repeat' split at h
  all_goals first
    | exact Except.noConfusion h
    | (injection h with h
       subst h
       refine ⟨fun hh => ?_, fun hh => ?_, fun v hv => ?_⟩ <;>
         (try simp_all [abs_nonneg]) <;>
         (rw [← hv]
          exact abs_nonneg _))

end SubjectParser

namespace Claims

open GmailDL Re Scenarios

set_option maxRecDepth 100000

set_option maxHeartbeats 4000000

/-- C4 counterexample: on a subject containing `BOT -2`, both parser
implementations yield signed quantity `+2` — the explicit minus sign on
the quantity token is ignored and the sign comes from the BUY side. -/
theorem C4_counterexample :
    (TosTradeParser.parse_trade_subject c4subject).map
        (fun r => (r.side, r.qty_signed, r.qty_abs))
      = .ok (some "BUY", some 2, some 2) ∧
    (SubjectParser.parse_trade_subject c4subject).map
        (fun r => (r.side, r.signed_qty))
      = .ok (some "BUY", some 2) ∧
    (2 : ℤ) ≠ -2 := by
  refine ⟨by decide, by decide, by decide⟩

/-- C4 amended: in both parsers, whenever a record is produced the signed
quantity is derived from the side token alone — positive for BUY,
negative for SELL, magnitude `qty_abs` — regardless of any explicit sign
on the quantity token; in particular `BOT -2` yields `+2`. -/
theorem C4_amended :
    (∀ (s : String) (r : TosTradeParser.ParsedFill),
      TosTradeParser.parse_trade_subject s = .ok r →
      (r.side = some "BUY" → r.qty_signed = r.qty_abs) ∧
      (r.side = some "SELL" →
        r.qty_signed = r.qty_abs.map (fun v => -v)) ∧
      (∀ v, r.qty_abs = some v → 0 ≤ v)) ∧
    (∀ (s : String) (r : SubjectParser.SubjParsed),
      SubjectParser.parse_trade_subject s = .ok r →
      (r.side = some "BUY" → r.signed_qty = r.qty) ∧
      (r.side = some "SELL" → r.signed_qty = r.qty.map (fun v => -v)) ∧
      (∀ v, r.qty = some v → 0 ≤ v)) := by
  constructor
  · intro s r h
    unfold TosTradeParser.parse_trade_subject at h
    exact TosTradeParser.afterTid_sign _ _ _ h
      (TosTradeParser.tidFill_fields _).1
      (TosTradeParser.tidFill_fields _).2.1
      (TosTradeParser.tidFill_fields _).2.2
  · intro s r h
    unfold SubjectParser.parse_trade_subject at h
    repeat' split at h
    all_goals first
      | exact SubjectParser.fromEquityCaps_sign _ _ h
      | exact SubjectParser.fromFutCaps_sign _ _ h
      | (injection h with h
         subst h
         refine ⟨fun hh => ?_, fun hh => ?_, fun v hv => ?_⟩ <;>
           simp_all [SubjectParser.emptyParsed])

/-- Witness for the amended C4: on the `BOT -2` subject the tos parser
returns its record with side BUY, and the amended theorem instantiated
there forces the signed quantity to equal the magnitude. -/
theorem C4_amended_witness :
    TosTradeParser.parse_trade_subject c4subject = .ok c4tosRec ∧
      c4tosRec.qty_signed = c4tosRec.qty_abs := by
  have h : TosTradeParser.parse_trade_subject c4subject = .ok c4tosRec := by
    decide
  exact ⟨h, (C4_amended.1 c4subject c4tosRec h).1 (by decide)⟩

end Claims

namespace Claims

open GmailDL Re Scenarios

set_option maxRecDepth 100000

set_option maxHeartbeats 8000000

/-- C5 counterexample: a subject missing only the `@price` token parses
with `parse_ok = false` in both implementations, but neither parser's
output record has a `fail_reason` key at all, so no failing field is ever
named. -/
theorem C5_counterexample :
    (TosTradeParser.parse_trade_subject c5subject).map
        (fun r => (r.parse_ok, r.price)) = .ok (false, none) ∧
    (SubjectParser.parse_trade_subject c5subject).map
        (fun r => r.parse_ok) = .ok false ∧
    "fail_reason" ∉ TosTradeParser.outputKeys ∧
    "fail_reason" ∉ SubjectParser.outputKeys := by
  refine ⟨by decide, by decide, by decide, by decide⟩

/-- C5 amended: a subject missing only the price token is indeed a hard
parse failure — the tos parser fills every other core field and leaves
`price = None` with `parse_ok = false`, and the other parser returns its
all-`None` record — but the failure is reported only through the
`parse_ok` flag: no output record of either parser carries a
`fail_reason` key naming the missing field. -/
theorem C5_amended :
    TosTradeParser.parse_trade_subject c5subject = .ok
      { parse_ok := false
        trade_id := some "12"
        side := some "BUY"
        qty_signed := some 2
        qty_abs := some 2
        symbol := some "SPY"
        contract_multiplier := some "100"
        expiry_date := some (2024, 5, 17)
        strike := some 500
        option_type := some "PUT"
        price := none
        underlying_mark := some (Rat.divInt 52079 100)
        impl_vol := some (Rat.divInt 1329 100)
        account := some "*****0960" } ∧
    SubjectParser.parse_trade_subject c5subject
      = .ok SubjectParser.emptyParsed ∧
    "fail_reason" ∉ TosTradeParser.outputKeys ∧
    "fail_reason" ∉ SubjectParser.outputKeys := by
  refine ⟨by decide, by decide, by decide, by decide⟩

/-- C10: on a well-formed subject whose price token is `0`, the tos
parser fills every core field — the price parses to the numeric value 0 —
yet `parse_ok` is false: the `all([...])` completeness check uses Python
truthiness, so a zero-valued price (or strike) fails it exactly like a
missing one. -/
theorem C10_zero_price_not_ok :
    TosTradeParser.parse_trade_subject c10subject = .ok
      { parse_ok := false
        trade_id := some "12"
        side := some "BUY"
        qty_signed := some 2
        qty_abs := some 2
        symbol := some "SPY"
        contract_multiplier := some "100"
        expiry_date := some (2024, 5, 17)
        strike := some 500
        option_type := some "PUT"
        price := some 0
        underlying_mark := some (Rat.divInt 52079 100)
        impl_vol := some (Rat.divInt 1329 100)
        account := some "*****0960" } ∧
    (∀ out : TosTradeParser.ParsedFill, out.price = some 0 →
      TosTradeParser.coreOk out = false) ∧
    (∀ out : TosTradeParser.ParsedFill, out.strike = some 0 →
      TosTradeParser.coreOk out = false) := by
  refine ⟨by decide, ?_, ?_⟩ <;>
    (intro out h
     simp [TosTradeParser.coreOk, TosTradeParser.truthyOptQ, h])

/-- Witness for C10: the zero-price and zero-strike completeness failures
instantiated on concrete records. -/
theorem C10_witness :
    TosTradeParser.coreOk
        { TosTradeParser.initFill with price := some 0 } = false ∧
    TosTradeParser.coreOk
        { TosTradeParser.initFill with strike := some 0 } = false :=
  ⟨C10_zero_price_not_ok.2.1 _ (by decide),
   C10_zero_price_not_ok.2.2 _ (by decide)⟩

end Claims

namespace Re

open GmailDL

theorem mtch_caps_extend :
    ∀ (fuel : Nat) (r : RE) (s : List Char) (prev : Option Char) (gs : Caps),
      ∀ res ∈ mtch fuel r s prev gs, ∃ nw, res.2.2 = nw ++ gs := by
  intro fuel
  induction fuel with
  | zero =>
    intro r s prev gs res hres
    simp [mtch] at hres
  | succ fuel ih =>
    intro r s prev gs res hres
    cases r with
    | eps =>
      simp only [mtch, List.mem_singleton] at hres
      exact ⟨[], by simp [hres]⟩
    | cls p =>
      cases s with
      | nil => simp [mtch] at hres
      | cons c t =>
        simp only [mtch] at hres
        split at hres
        · simp only [List.mem_singleton] at hres
          exact ⟨[], by simp [hres]⟩
        · simp at hres
    | seq a b =>
      simp only [mtch, List.mem_flatMap] at hres
      obtain ⟨out, hout, hres⟩ := hres
      obtain ⟨n1, h1⟩ := ih a s prev gs out hout
      obtain ⟨n2, h2⟩ := ih b out.1 out.2.1 out.2.2 res hres
      exact ⟨n2 ++ n1, by rw [h2, h1, List.append_assoc]⟩
    | alt a b =>
      simp only [mtch, List.mem_append] at hres
      rcases hres with h | h
      · exact ih a s prev gs res h
      · exact ih b s prev gs res h
    | grp n a =>
      simp only [mtch, List.mem_map] at hres
      obtain ⟨out, hout, hres⟩ := hres
      obtain ⟨n1, h1⟩ := ih a s prev gs out hout
      subst hres
      exact ⟨(n, s.take (s.length - out.1.length)) :: n1, by simp [h1]⟩
    | rep a lo hi lz =>
      cases lo with
      | succ lo' =>
        simp only [mtch, List.mem_flatMap] at hres
        obtain ⟨out, hout, hres⟩ := hres
        obtain ⟨n1, h1⟩ := ih a s prev gs out hout
        obtain ⟨n2, h2⟩ := ih _ out.1 out.2.1 out.2.2 res hres
        exact ⟨n2 ++ n1, by rw [h2, h1, List.append_assoc]⟩
      | zero =>
        simp only [mtch] at hres
        split at hres
        · simp only [List.mem_singleton] at hres
          exact ⟨[], by simp [hres]⟩
        · split at hres
          · rcases List.mem_cons.mp hres with h | h
            · exact ⟨[], by simp [h]⟩
            · rw [List.mem_flatMap] at h
              obtain ⟨out, hout, hres'⟩ := h
              obtain ⟨n1, h1⟩ := ih a s prev gs out hout
              obtain ⟨n2, h2⟩ := ih _ out.1 out.2.1 out.2.2 res hres'
              exact ⟨n2 ++ n1, by rw [h2, h1, List.append_assoc]⟩
          · rcases List.mem_append.mp hres with h | h
            · rw [List.mem_flatMap] at h
              obtain ⟨out, hout, hres'⟩ := h
              obtain ⟨n1, h1⟩ := ih a s prev gs out hout
              obtain ⟨n2, h2⟩ := ih _ out.1 out.2.1 out.2.2 res hres'
              exact ⟨n2 ++ n1, by rw [h2, h1, List.append_assoc]⟩
            · simp only [List.mem_singleton] at h
              exact ⟨[], by simp [h]⟩
    | wb =>
      simp only [mtch] at hres
      split at hres
      · simp only [List.mem_singleton] at hres
        exact ⟨[], by simp [hres]⟩
      · simp at hres
    | eos =>
      simp only [mtch] at hres
      split at hres
      · simp only [List.mem_singleton] at hres
        exact ⟨[], by simp [hres]⟩
      · simp at hres
    | la a =>
      simp only [mtch] at hres
      split at hres
      · simp at hres
      · simp only [List.mem_singleton] at hres
        exact ⟨[], by simp [hres]⟩

end Re

namespace Re

open GmailDL

theorem mtch_sound :
    ∀ (fuel : Nat) (r : RE) (s : List Char) (prev : Option Char) (gs : Caps),
      wfRE r = true →
      ∀ res ∈ mtch fuel r s prev gs,
        (∃ u, s = u ++ res.1 ∧ M r u) ∧
        (∀ n cs, (n, cs) ∈ res.2.2 →
          (n, cs) ∈ gs ∨ ∃ a, (n, a) ∈ grpsOf r ∧ M a cs) := by
  intro fuel
  induction fuel with
  | zero =>
    intro r s prev gs hwf res hres
    simp [mtch] at hres
  | succ fuel ih =>
    intro r s prev gs hwf res hres
    cases r with
    | eps =>
      simp only [mtch, List.mem_singleton] at hres
      subst hres
      exact ⟨⟨[], by simp, M.eps⟩, fun n cs h => .inl h⟩
    | cls p =>
      cases s with
      | nil => simp [mtch] at hres
      | cons c t =>
        simp only [mtch] at hres
        split at hres
        · simp only [List.mem_singleton] at hres
          subst hres
          exact ⟨⟨[c], by simp, M.cls (by assumption)⟩, fun n cs h => .inl h⟩
        · simp at hres
    | seq a b =>
      simp only [wfRE, Bool.and_eq_true] at hwf
      simp only [mtch, List.mem_flatMap] at hres
      obtain ⟨out, hout, hres⟩ := hres
      obtain ⟨⟨u, hu, hMu⟩, hc1⟩ := ih a s prev gs hwf.1 out hout
      obtain ⟨⟨v, hv, hMv⟩, hc2⟩ := ih b out.1 out.2.1 out.2.2 hwf.2 res hres
      refine ⟨⟨u ++ v, by rw [hu, hv, List.append_assoc], M.seq hMu hMv⟩, ?_⟩
      intro n cs hmem
      rcases hc2 n cs hmem with hin | ⟨a', ha', hMa'⟩
      · rcases hc1 n cs hin with hgs | ⟨a', ha', hMa'⟩
        · exact .inl hgs
        · exact .inr ⟨a', by simp [grpsOf, List.mem_append, ha'], hMa'⟩
      · exact .inr ⟨a', by simp [grpsOf, List.mem_append, ha'], hMa'⟩
    | alt a b =>
      simp only [wfRE, Bool.and_eq_true] at hwf
      simp only [mtch, List.mem_append] at hres
      rcases hres with h | h
      · obtain ⟨⟨u, hu, hMu⟩, hc⟩ := ih a s prev gs hwf.1 res h
        refine ⟨⟨u, hu, M.altL hMu⟩, ?_⟩
        intro n cs hmem
        rcases hc n cs hmem with hgs | ⟨a', ha', hMa'⟩
        · exact .inl hgs
        · exact .inr ⟨a', by simp [grpsOf, List.mem_append, ha'], hMa'⟩
      · obtain ⟨⟨u, hu, hMu⟩, hc⟩ := ih b s prev gs hwf.2 res h
        refine ⟨⟨u, hu, M.altR hMu⟩, ?_⟩
        intro n cs hmem
        rcases hc n cs hmem with hgs | ⟨a', ha', hMa'⟩
        · exact .inl hgs
        · exact .inr ⟨a', by simp [grpsOf, List.mem_append, ha'], hMa'⟩
    | grp m a =>
      simp only [wfRE] at hwf
      simp only [mtch, List.mem_map] at hres
      obtain ⟨out, hout, hres⟩ := hres
      obtain ⟨⟨u, hu, hMu⟩, hc⟩ := ih a s prev gs hwf out hout
      subst hres
      have htaken : s.take (s.length - out.1.length) = u := by
        rw [hu, List.length_append, Nat.add_sub_cancel, List.take_left]
      refine ⟨⟨u, hu, M.grp hMu⟩, ?_⟩
      intro n cs hmem
      rcases List.mem_cons.mp hmem with hh | ht
      · injection hh with h1 h2
        subst h1
        right
        refine ⟨a, by simp [grpsOf], ?_⟩
        rw [h2, htaken]
        exact hMu
      · rcases hc n cs ht with hgs | ⟨a', ha', hMa'⟩
        · exact .inl hgs
        · exact .inr ⟨a', by simp [grpsOf, ha'], hMa'⟩
    | rep a lo hi lz =>
      have hwfa : wfRE a = true := by
        simp only [wfRE, Bool.and_eq_true] at hwf
        exact hwf.2
      have hbound : ∀ k, hi = some k → lo ≤ k := by
        intro k hk
        simp only [wfRE, hk, Bool.and_eq_true, decide_eq_true_eq] at hwf
        exact hwf.1
      cases lo with
      | succ lo' =>
        have hne : hi ≠ some 0 := by
          intro hk
          have := hbound 0 hk
          omega
        have hwfrec : wfRE (.rep a lo' (hi.map (fun k => k - 1)) lz) = true := by
          simp only [wfRE, Bool.and_eq_true]
          refine ⟨?_, hwfa⟩
          cases hi with
          | none => simp
          | some k =>
            have hb := hbound k rfl
            simp only [Option.map_some']
            simp only [decide_eq_true_eq]
            omega
        simp only [mtch, List.mem_flatMap] at hres
        obtain ⟨out, hout, hres⟩ := hres
        obtain ⟨⟨u, hu, hMu⟩, hc1⟩ := ih a s prev gs hwfa out hout
        obtain ⟨⟨v, hv, hMv⟩, hc2⟩ :=
          ih _ out.1 out.2.1 out.2.2 hwfrec res hres
        refine ⟨⟨u ++ v, by rw [hu, hv, List.append_assoc],
          M.repCons hne hMu hMv⟩, ?_⟩
        intro n cs hmem
        rcases hc2 n cs hmem with hin | ⟨a', ha', hMa'⟩
        · rcases hc1 n cs hin with hgs | ⟨a', ha', hMa'⟩
          · exact .inl hgs
          · exact .inr ⟨a', by simpa [grpsOf] using ha', hMa'⟩
        · exact .inr ⟨a', by simpa [grpsOf] using ha', hMa'⟩
      | zero =>
        simp only [mtch] at hres
        split at hres
        · simp only [List.mem_singleton] at hres
          subst hres
          exact ⟨⟨[], by simp, M.repNil⟩, fun n cs h => .inl h⟩
        · have hne : hi ≠ some 0 := by assumption
          have hwfrec : wfRE (.rep a 0 (hi.map (fun k => k - 1)) lz)
              = true := by
            simp only [wfRE, Bool.and_eq_true]
            refine ⟨?_, hwfa⟩
            cases hi with
            | none => simp
            | some k => simp
          have hstep :
              ∀ res ∈ (mtch fuel a s prev gs).flatMap
                (fun out =>
                  mtch fuel (.rep a 0 (hi.map (· - 1)) lz)
                    out.1 out.2.1 out.2.2),
              (∃ u, s = u ++ res.1 ∧ M (.rep a 0 hi lz) u) ∧
              (∀ n cs, (n, cs) ∈ res.2.2 →
                (n, cs) ∈ gs ∨
                  ∃ a', (n, a') ∈ grpsOf (.rep a 0 hi lz) ∧ M a' cs) := by
            intro res hres
            rw [List.mem_flatMap] at hres
            obtain ⟨out, hout, hres⟩ := hres
            obtain ⟨⟨u, hu, hMu⟩, hc1⟩ := ih a s prev gs hwfa out hout
            obtain ⟨⟨v, hv, hMv⟩, hc2⟩ :=
              ih _ out.1 out.2.1 out.2.2 hwfrec res hres
            refine ⟨⟨u ++ v, by rw [hu, hv, List.append_assoc],
              M.repCons hne hMu hMv⟩, ?_⟩
            intro n cs hmem
            rcases hc2 n cs hmem with hin | ⟨a', ha', hMa'⟩
            · rcases hc1 n cs hin with hgs | ⟨a', ha', hMa'⟩
              · exact .inl hgs
              · exact .inr ⟨a', by simpa [grpsOf] using ha', hMa'⟩
            · exact .inr ⟨a', by simpa [grpsOf] using ha', hMa'⟩
          split at hres
          · rcases List.mem_cons.mp hres with h | h
            · subst h
              exact ⟨⟨[], by simp, M.repNil⟩, fun n cs h => .inl h⟩
            · exact hstep res h
          · rcases List.mem_append.mp hres with h | h
            · exact hstep res h
            · simp only [List.mem_singleton] at h
              subst h
              exact ⟨⟨[], by simp, M.repNil⟩, fun n cs h => .inl h⟩
    | wb =>
      simp only [mtch] at hres
      split at hres
      · simp only [List.mem_singleton] at hres
        subst hres
        exact ⟨⟨[], by simp, M.wb⟩, fun n cs h => .inl h⟩
      · simp at hres
    | eos =>
      simp only [mtch] at hres
      split at hres
      · simp only [List.mem_singleton] at hres
        subst hres
        exact ⟨⟨[], by simp, M.eos⟩, fun n cs h => .inl h⟩
      · simp at hres
    | la a =>
      simp only [mtch] at hres
      split at hres
      · simp at hres
      · simp only [List.mem_singleton] at hres
        subst hres
        exact ⟨⟨[], by simp, M.la⟩, fun n cs h => .inl h⟩

end Re

namespace Re

open GmailDL

theorem mtch_mustCap :
    ∀ (fuel : Nat) (r : RE) (s : List Char) (prev : Option Char) (gs : Caps)
      (n : Nat), mustCap n r = true →
      ∀ res ∈ mtch fuel r s prev gs, ∃ cs, (n, cs) ∈ res.2.2 := by
  intro fuel
  induction fuel with
  | zero =>
    intro r s prev gs n hm res hres
    simp [mtch] at hres
  | succ fuel ih =>
    intro r s prev gs n hm res hres
    cases r with
    | eps => simp [mustCap] at hm
    | cls p => simp [mustCap] at hm
    | wb => simp [mustCap] at hm
    | eos => simp [mustCap] at hm
    | la a => simp [mustCap] at hm
    | seq a b =>
      simp only [mustCap, Bool.or_eq_true] at hm
      simp only [mtch, List.mem_flatMap] at hres
      obtain ⟨out, hout, hres⟩ := hres
      rcases hm with hma | hmb
      · obtain ⟨cs, hcs⟩ := ih a s prev gs n hma out hout
        obtain ⟨nw, hnw⟩ :=
          mtch_caps_extend fuel b out.1 out.2.1 out.2.2 res hres
        exact ⟨cs, by rw [hnw]; exact List.mem_append_right _ hcs⟩
      · exact ih b out.1 out.2.1 out.2.2 n hmb res hres
    | alt a b =>
      simp only [mustCap, Bool.and_eq_true] at hm
      simp only [mtch, List.mem_append] at hres
      rcases hres with h | h
      · exact ih a s prev gs n hm.1 res h
      · exact ih b s prev gs n hm.2 res h
    | grp m a =>
      simp only [mustCap, Bool.or_eq_true, decide_eq_true_eq] at hm
      simp only [mtch, List.mem_map] at hres
      obtain ⟨out, hout, hres⟩ := hres
      subst hres
      rcases hm with hmn | hma
      · subst hmn
        exact ⟨_, List.mem_cons_self _ _⟩
      · obtain ⟨cs, hcs⟩ := ih a s prev gs n hma out hout
        exact ⟨cs, List.mem_cons_of_mem _ hcs⟩
    | rep a lo hi lz =>
      simp only [mustCap, Bool.and_eq_true, decide_eq_true_eq] at hm
      obtain ⟨hlo, hma⟩ := hm
      cases lo with
      | zero => exact absurd rfl hlo
      | succ lo' =>
        simp only [mtch, List.mem_flatMap] at hres
        obtain ⟨out, hout, hres⟩ := hres
        obtain ⟨cs, hcs⟩ := ih a s prev gs n hma out hout
        obtain ⟨nw, hnw⟩ :=
          mtch_caps_extend fuel _ out.1 out.2.1 out.2.2 res hres
        exact ⟨cs, by rw [hnw]; exact List.mem_append_right _ hcs⟩

theorem capOf_mem (caps : Caps) (n : Nat) (cs : List Char)
    (h : capOf caps n = some cs) : (n, cs) ∈ caps := by
  unfold capOf at h
  cases hf : caps.find? (fun p => p.1 = n) with
  | none => rw [hf] at h; cases h
  | some q =>
    obtain ⟨q1, q2⟩ := q
    rw [hf] at h
    have hq := List.mem_of_find?_eq_some hf
    have hp := List.find?_some hf
    simp only [decide_eq_true_eq] at hp
    simp only [Option.map_some'] at h
    injection h with h
    subst hp
    subst h
    exact hq

theorem capOf_of_mem (caps : Caps) (n : Nat) (cs : List Char)
    (h : (n, cs) ∈ caps) : ∃ cs', capOf caps n = some cs' := by
  unfold capOf
  cases hf : caps.find? (fun p => p.1 = n) with
  | none =>
    have := List.find?_eq_none.mp hf (n, cs) h
    simp at this
  | some q => exact ⟨q.2, rfl⟩

theorem firstMatch_caps (fuel : Nat) (r : RE) (s : List Char)
    (prev : Option Char) (rest : List Char) (lc : Option Char) (caps : Caps)
    (hwf : wfRE r = true)
    (h : firstMatch fuel r s prev = some (rest, lc, caps)) :
    (∀ n cs, (n, cs) ∈ caps → ∃ a, (n, a) ∈ grpsOf r ∧ M a cs) ∧
    (∀ n, mustCap n r = true → ∃ cs, (n, cs) ∈ caps) := by
  unfold firstMatch at h
  have hm : (rest, lc, caps) ∈ mtch fuel r s prev [] := by
    cases hl : mtch fuel r s prev [] with
    | nil => rw [hl] at h; cases h
    | cons x t =>
      rw [hl] at h
      simp only [List.head?] at h
      injection h with h
      exact h ▸ List.mem_cons_self x t
  constructor
  · intro n cs hmem
    rcases (mtch_sound fuel r s prev [] hwf _ hm).2 n cs hmem with h0 | hg
    · simp at h0
    · exact hg
  · intro n hmc
    exact mtch_mustCap fuel r s prev [] n hmc _ hm

theorem searchAux_caps (fuel : Nat) (r : RE) (hwf : wfRE r = true) :
    ∀ (pf : Nat) (s : List Char) (prev : Option Char) (preRev : List Char)
      (pre : List Char) (caps : Caps) (rest : List Char),
      searchAux fuel r pf s prev preRev = some (pre, caps, rest) →
      (∀ n cs, (n, cs) ∈ caps →
        n = 0 ∨ ∃ a, (n, a) ∈ grpsOf r ∧ M a cs) ∧
      (∀ n, mustCap n r = true → ∃ cs, (n, cs) ∈ caps) := by
  intro pf
  induction pf with
  | zero =>
    intro s prev preRev pre caps rest h
    simp [searchAux] at h
  | succ pf ih =>
    intro s prev preRev pre caps rest h
    cases hfm : firstMatch fuel r s prev with
    | some trip =>
      obtain ⟨mrest, mlc, mcaps⟩ := trip
      simp only [searchAux, hfm] at h
      obtain ⟨hcov, hmc⟩ :=
        firstMatch_caps fuel r s prev mrest mlc mcaps hwf hfm
      injection h with h
      injection h with h1 h
      injection h with h2 h3
      subst h2
      constructor
      · intro n cs hmem
        rcases List.mem_cons.mp hmem with hh | ht
        · injection hh with hn hcs
          exact .inl hn
        · exact .inr (hcov n cs ht)
      · intro n hm
        obtain ⟨cs, hcs⟩ := hmc n hm
        exact ⟨cs, List.mem_cons_of_mem _ hcs⟩
    | none =>
      simp only [searchAux, hfm] at h
      cases s with
      | nil => cases h
      | cons c t => exact ih t (some c) (c :: preRev) pre caps rest h

theorem search_capOf_shape (r : RE) (s : List Char) (hwf : wfRE r = true)
    (pre : List Char) (caps : Caps) (rest : List Char)
    (h : search r s = some (pre, caps, rest))
    (n : Nat) (hn : n ≠ 0) (cs : List Char) (hc : capOf caps n = some cs) :
    ∃ a, (n, a) ∈ grpsOf r ∧ M a cs := by
  unfold search at h
  obtain ⟨hcov, _⟩ :=
    searchAux_caps (fuelFor s) r hwf (s.length + 1) s none [] pre caps rest h
  rcases hcov n cs (capOf_mem caps n cs hc) with h0 | hg
  · exact absurd h0 hn
  · exact hg

theorem search_capOf_mustCap (r : RE) (s : List Char) (hwf : wfRE r = true)
    (pre : List Char) (caps : Caps) (rest : List Char)
    (h : search r s = some (pre, caps, rest))
    (n : Nat) (hm : mustCap n r = true) :
    ∃ cs, capOf caps n = some cs := by
  unfold search at h
  obtain ⟨_, hmc⟩ :=
    searchAux_caps (fuelFor s) r hwf (s.length + 1) s none [] pre caps rest h
  obtain ⟨cs, hcs⟩ := hmc n hm
  exact capOf_of_mem caps n cs hcs

theorem firstMatch_capOf_shape (fuel : Nat) (r : RE) (s : List Char)
    (prev : Option Char) (rest : List Char) (lc : Option Char) (caps : Caps)
    (hwf : wfRE r = true)
    (h : firstMatch fuel r s prev = some (rest, lc, caps))
    (n : Nat) (cs : List Char) (hc : capOf caps n = some cs) :
    ∃ a, (n, a) ∈ grpsOf r ∧ M a cs :=
  (firstMatch_caps fuel r s prev rest lc caps hwf h).1 n cs
    (capOf_mem caps n cs hc)

theorem firstMatch_capOf_mustCap (fuel : Nat) (r : RE) (s : List Char)
    (prev : Option Char) (rest : List Char) (lc : Option Char) (caps : Caps)
    (hwf : wfRE r = true)
    (h : firstMatch fuel r s prev = some (rest, lc, caps))
    (n : Nat) (hm : mustCap n r = true) :
    ∃ cs, capOf caps n = some cs := by
  obtain ⟨cs, hcs⟩ := (firstMatch_caps fuel r s prev rest lc caps hwf h).2 n hm
  exact capOf_of_mem caps n cs hcs

end Re

namespace Re

open GmailDL

theorem M_cls_inv {p : Char → Bool} {u : List Char} (h : M (.cls p) u) :
    ∃ c, u = [c] ∧ p c = true := by
  cases h
  exact ⟨_, rfl, by assumption⟩

theorem M_seq_inv {a b : RE} {w : List Char} (h : M (.seq a b) w) :
    ∃ u v, w = u ++ v ∧ M a u ∧ M b v := by
  cases h
  exact ⟨_, _, rfl, by assumption, by assumption⟩

theorem M_alt_inv {a b : RE} {u : List Char} (h : M (.alt a b) u) :
    M a u ∨ M b u := by
  cases h with
  | altL h => exact .inl h
  | altR h => exact .inr h

theorem M_rep_some0 {a : RE} {lo : Nat} {lz : Bool} {u : List Char}
    (h : M (.rep a lo (some 0) lz) u) : u = [] := by
  cases h with
  | repNil => rfl
  | repCons hne hu hv => exact absurd rfl hne

theorem M_opt_inv {a : RE} {lz : Bool} {u : List Char}
    (h : M (.rep a 0 (some 1) lz) u) : u = [] ∨ M a u := by
  cases h with
  | repNil => exact .inl rfl
  | repCons hne hu hv =>
    have hv' : _ = ([] : List Char) := M_rep_some0 hv
    right
    rw [hv', List.append_nil]
    exact hu

theorem M_repCls_inv {r : RE} {w : List Char} (h : M r w) :
    ∀ (p : Char → Bool) (lo : Nat) (hi : Option Nat) (lz : Bool),
      r = RE.rep (.cls p) lo hi lz →
      (∀ c ∈ w, p c = true) ∧ lo ≤ w.length ∧
        ∀ k, hi = some k → w.length ≤ k := by
  induction h with
  | eps => intro p lo hi lz heq; exact RE.noConfusion heq
  | cls hp => intro p lo hi lz heq; exact RE.noConfusion heq
  | seq h1 h2 ih1 ih2 => intro p lo hi lz heq; exact RE.noConfusion heq
  | altL h1 ih1 => intro p lo hi lz heq; exact RE.noConfusion heq
  | altR h1 ih1 => intro p lo hi lz heq; exact RE.noConfusion heq
  | grp h1 ih1 => intro p lo hi lz heq; exact RE.noConfusion heq
  | wb => intro p lo hi lz heq; exact RE.noConfusion heq
  | eos => intro p lo hi lz heq; exact RE.noConfusion heq
  | la => intro p lo hi lz heq; exact RE.noConfusion heq
  | repNil =>
    intro p lo hi lz heq
    injection heq with ha hlo hhi hlz
    subst hlo
    exact ⟨by simp, by simp, by simp⟩
  | repCons hne hu hv ihu ihv =>
    intro p lo hi lz heq
    injection heq with ha hlo hhi hlz
    subst ha
    subst hlo
    subst hhi
    subst hlz
    obtain ⟨c, hc, hpc⟩ := M_cls_inv hu
    obtain ⟨hall, hlen, hbound⟩ := ihv p _ _ _ rfl
    subst hc
    refine ⟨?_, ?_, ?_⟩
    · intro x hx
      rcases List.mem_cons.mp hx with hx | hx
      · rw [hx]; exact hpc
      · exact hall x hx
    · simp only [List.singleton_append, List.length_cons]
      omega
    · intro k hk
      subst hk
      have hk0 : k ≠ 0 := by
        intro h0
        exact hne (by rw [h0])
      have := hbound (k - 1) (by simp)
      simp only [List.singleton_append, List.length_cons]
      omega

end Re

namespace GmailDL

theorem isPyWhite_false_of_ge (c : Char) (h : 48 ≤ c.toNat) :
    isPyWhite c = false := by
  cases hw : isPyWhite c with
  | false => rfl
  | true =>
    simp only [isPyWhite, Bool.or_eq_true, decide_eq_true_eq] at hw
    rcases hw with ((((h1 | h1) | h1) | h1) | h1) | h1 <;>
      (subst h1; exact absurd h (by decide))

theorem digit_not_sign (c : Char) (h : isDigitChar c = true) :
    ¬ c = '+' ∧ ¬ c = '-' := by
  constructor <;> (intro he; subst he; exact absurd h (by decide))

theorem pyIntCore_digits (cs : List Char) (hne : cs ≠ [])
    (hall : ∀ c ∈ cs, isDigitChar c = true) :
    pyIntCore cs = some (digitsVal cs : ℤ) := by
  unfold pyIntCore
  have h1 : (cs ≠ []) = True := by simp [hne]
  have h2 : cs.all isDigitChar = true := List.all_eq_true.mpr hall
  simp [hne, h2]

theorem pyInt?_shape (sgn ds : List Char)
    (hs : sgn = [] ∨ sgn = ['+'] ∨ sgn = ['-'])
    (hne : ds ≠ []) (hall : ∀ c ∈ ds, isDigitChar c = true) :
    ∃ v, pyInt? (String.mk (sgn ++ ds)) = some v := by
  have hcore := pyIntCore_digits ds hne hall
  rcases hs with h | h | h
  · subst h
    cases ds with
    | nil => exact absurd rfl hne
    | cons c t =>
      obtain ⟨hp, hm⟩ := digit_not_sign c (hall c (by simp))
      refine ⟨(digitsVal (c :: t) : ℤ), ?_⟩
      simp only [List.nil_append]
      simp only [pyInt?]
      rw [if_neg hp, if_neg hm]
      exact hcore
  · subst h
    refine ⟨(digitsVal ds : ℤ), ?_⟩
    simp only [pyInt?, List.singleton_append]
    simp [hcore]
  · subst h
    refine ⟨-(digitsVal ds : ℤ), ?_⟩
    simp only [pyInt?, List.singleton_append]
    simp [hcore]

theorem spanLoop_eq (p : Char → Bool) (d1 rest acc : List Char)
    (h1 : ∀ c ∈ d1, p c = true)
    (hr : ∀ c, rest.head? = some c → p c = false) :
    List.span.loop p (d1 ++ rest) acc = (acc.reverse ++ d1, rest) := by
  induction d1 generalizing acc with
  | nil =>
    cases rest with
    | nil => simp [List.span.loop]
    | cons c t =>
      have hc : p c = false := hr c rfl
      simp [List.span.loop, hc]
  | cons c t ih =>
    have hc : p c = true := h1 c (by simp)
    simp only [List.cons_append, List.span.loop, hc, List.append_eq]
    rw [ih (c :: acc) (fun x hx => h1 x (List.mem_cons_of_mem c hx))]
    simp

theorem span_eq (p : Char → Bool) (d1 rest : List Char)
    (h1 : ∀ c ∈ d1, p c = true)
    (hr : ∀ c, rest.head? = some c → p c = false) :
    (d1 ++ rest).span p = (d1, rest) := by
  unfold List.span
  rw [spanLoop_eq p d1 rest [] h1 hr]
  simp

theorem pyFloatCore_shape (d1 mid d2 : List Char)
    (h1 : ∀ c ∈ d1, isDigitChar c = true)
    (hm : mid = [] ∨ mid = ['.'])
    (h2 : ∀ c ∈ d2, isDigitChar c = true)
    (hne : d1 ≠ [] ∨ d2 ≠ []) :
    ∃ v, pyFloatCore (d1 ++ mid ++ d2) = some v := by
  rcases hm with h | h
  · subst h
    have hall : ∀ c ∈ d1 ++ d2, isDigitChar c = true := by
      intro c hc
      rcases List.mem_append.mp hc with hc | hc
      · exact h1 c hc
      · exact h2 c hc
    have hne' : d1 ++ d2 ≠ [] := by
      rcases hne with h | h <;> simp [h]
    unfold pyFloatCore
    rw [List.append_nil, show d1 ++ d2 = (d1 ++ d2) ++ [] by simp,
      span_eq isDigitChar (d1 ++ d2) [] hall (by intro c hc; cases hc)]
    simp [hne']
  · subst h
    unfold pyFloatCore
    rw [List.append_assoc, List.singleton_append,
      span_eq isDigitChar d1 ('.' :: d2) h1
        (by intro c hc; injection hc with hc; subst hc; decide)]
    have hall2 : d2.all isDigitChar = true := List.all_eq_true.mpr h2
    rcases hne with h | h <;> simp [hall2, h]

theorem pyFloat?_shape (d1 mid d2 : List Char)
    (h1 : ∀ c ∈ d1, isDigitChar c = true)
    (hm : mid = [] ∨ mid = ['.'])
    (h2 : ∀ c ∈ d2, isDigitChar c = true)
    (hne : d1 ≠ [] ∨ d2 ≠ []) :
    ∃ v, pyFloat? (String.mk (d1 ++ mid ++ d2)) = some v := by
  obtain ⟨v, hv⟩ := pyFloatCore_shape d1 mid d2 h1 hm h2 hne
  have hhead : ∀ c t, d1 ++ mid ++ d2 = c :: t → ¬ c = '+' ∧ ¬ c = '-' := by
    intro c t hct
    cases d1 with
    | cons x xs =>
      simp only [List.cons_append, List.cons.injEq] at hct
      obtain ⟨hx, _⟩ := hct
      subst hx
      exact digit_not_sign x (h1 x (List.mem_cons_self x xs))
    | nil =>
      rcases hm with h | h
      · subst h
        simp only [List.nil_append] at hct
        cases d2 with
        | nil => cases hct
        | cons y ys =>
          injection hct with hy _
          subst hy
          exact digit_not_sign y (h2 y (List.mem_cons_self y ys))
      · subst h
        simp only [List.nil_append, List.cons_append] at hct
        injection hct with hy _
        subst hy
        exact ⟨by decide, by decide⟩
  cases hd : d1 ++ mid ++ d2 with
  | nil =>
    exfalso
    rcases hne with h | h
    · cases d1 with
      | nil => exact h rfl
      | cons x xs => simp at hd
    · cases d2 with
      | nil => exact h rfl
      | cons x xs => simp at hd
  | cons c t =>
    obtain ⟨hp, hmn⟩ := hhead c t hd
    refine ⟨v, ?_⟩
    simp only [pyFloat?, hd]
    rw [if_neg hp, if_neg hmn, ← hd]
    exact hv

end GmailDL

namespace GmailDL

theorem wordsOfAux_word (a : List Char) :
    ∀ (rest cur : List Char), (∀ c ∈ a, isPyWhite c = false) →
      wordsOfAux (a ++ rest) cur = wordsOfAux rest (a.reverse ++ cur) := by
  induction a with
  | nil => intro rest cur hA; simp
  | cons c t ih =>
    intro rest cur hA
    have hc : isPyWhite c = false := hA c (List.mem_cons_self c t)
    simp only [List.cons_append, wordsOfAux, hc, List.append_eq,
      Bool.false_eq_true, if_false]
    rw [ih rest (c :: cur) (fun x hx => hA x (List.mem_cons_of_mem c hx))]
    simp

theorem wordsOfAux_white (w : List Char) :
    ∀ (rest : List Char), (∀ c ∈ w, isPyWhite c = true) →
      wordsOfAux (w ++ rest) [] = wordsOfAux rest [] := by
  induction w with
  | nil => intro rest hw; simp
  | cons c t ih =>
    intro rest hw
    have hc : isPyWhite c = true := hw c (List.mem_cons_self c t)
    simp only [List.cons_append, wordsOfAux, hc, if_pos rfl]
    exact ih rest (fun x hx => hw x (List.mem_cons_of_mem c hx))

theorem wordsOf_pair (a w b : List Char)
    (ha : a ≠ []) (hb : b ≠ []) (hw : w ≠ [])
    (hA : ∀ c ∈ a, isPyWhite c = false)
    (hW : ∀ c ∈ w, isPyWhite c = true)
    (hB : ∀ c ∈ b, isPyWhite c = false) :
    wordsOf (a ++ w ++ b) = [a, b] := by
  unfold wordsOf
  rw [List.append_assoc, wordsOfAux_word a (w ++ b) [] hA]
  cases w with
  | nil => exact absurd rfl hw
  | cons c t =>
    have hc : isPyWhite c = true := hW c (List.mem_cons_self c t)
    have hrev : a.reverse ++ [] ≠ [] := by simpa using ha
    simp only [List.cons_append, wordsOfAux, hc, if_pos rfl, List.append_eq]
    rw [if_neg hrev]
    rw [wordsOfAux_white t b (fun x hx => hW x (List.mem_cons_of_mem c hx))]
    rw [show b = b ++ [] by simp, wordsOfAux_word b [] [] hB]
    have hbrev : b.reverse ++ [] ≠ [] := by simpa using hb
    simp only [wordsOfAux]
    rw [if_neg hbrev]
    simp

end GmailDL

namespace Re

open GmailDL

theorem M_digits {lo : Nat} {hi : Option Nat} {cs : List Char}
    (h : M (.rep digit lo hi false) cs) (hlo : 1 ≤ lo) :
    cs ≠ [] ∧ ∀ c ∈ cs, isDigitChar c = true := by
  obtain ⟨hall, hlen, _⟩ := M_repCls_inv h isDigitChar lo hi false rfl
  refine ⟨?_, hall⟩
  intro he
  subst he
  simp only [List.length_nil] at hlen
  omega

theorem pyInt?_digits_some (cs : List Char) (hne : cs ≠ [])
    (hall : ∀ c ∈ cs, isDigitChar c = true) :
    ∃ v, pyInt? (String.mk cs) = some v := by
  have := pyInt?_shape [] cs (.inl rfl) hne hall
  simpa using this

theorem M_intFrac_float (cs : List Char)
    (h : M (.seq (.rep digit 1 none false)
      (.rep (.seq (.cls (fun x => x = '.')) (.rep digit 1 none false))
        0 (some 1) false)) cs) :
    ∃ v, pyFloat? (String.mk cs) = some v := by
  obtain ⟨u, v, hcs, hMu, hMv⟩ := M_seq_inv h
  obtain ⟨hneU, hdU⟩ := M_digits hMu (le_refl 1)
  subst hcs
  rcases M_opt_inv hMv with hv | hv
  · subst hv
    have := pyFloat?_shape u [] [] hdU (.inl rfl)
      (fun c hc => absurd hc (List.not_mem_nil c)) (.inl hneU)
    simpa using this
  · obtain ⟨w1, w2, hveq, hMdot, hMd⟩ := M_seq_inv hv
    obtain ⟨c, hw1, hpc⟩ := M_cls_inv hMdot
    obtain ⟨hneW, hdW⟩ := M_digits hMd (le_refl 1)
    subst hveq
    subst hw1
    have hc' : c = '.' := by simpa using hpc
    subst hc'
    have := pyFloat?_shape u ['.'] w2 hdU (.inr rfl) hdW (.inl hneU)
    simpa using this

theorem M_dotNum_float (cs : List Char)
    (h : M (.seq (.cls (fun x => x = '.')) (.rep digit 1 none false)) cs) :
    ∃ v, pyFloat? (String.mk cs) = some v := by
  obtain ⟨u, v, hcs, hMu, hMv⟩ := M_seq_inv h
  obtain ⟨c, hu, hpc⟩ := M_cls_inv hMu
  obtain ⟨hneV, hdV⟩ := M_digits hMv (le_refl 1)
  subst hcs
  subst hu
  have hc' : c = '.' := by simpa using hpc
  subst hc'
  have := pyFloat?_shape [] ['.'] v (fun c hc => absurd hc (List.not_mem_nil c))
    (.inr rfl) hdV (.inr hneV)
  simpa using this

theorem M_markNum_float (cs : List Char)
    (h : M (.seq (.rep digit 0 none false)
      (.seq (.rep (.cls (fun x => x = '.')) 0 (some 1) false)
        (.rep digit 1 none false))) cs) :
    ∃ v, pyFloat? (String.mk cs) = some v := by
  obtain ⟨u, vw, hcs, hMu, hMvw⟩ := M_seq_inv h
  obtain ⟨m, d2, hvw, hMm, hMd⟩ := M_seq_inv hMvw
  obtain ⟨hdU, _, _⟩ := M_repCls_inv hMu isDigitChar 0 none false rfl
  obtain ⟨hneD, hdD⟩ := M_digits hMd (le_refl 1)
  subst hvw
  subst hcs
  rcases M_opt_inv hMm with hm | hm
  · subst hm
    have := pyFloat?_shape u [] d2 hdU (.inl rfl) hdD (.inr hneD)
    simpa using this
  · obtain ⟨c, hmc, hpc⟩ := M_cls_inv hm
    subst hmc
    have hc' : c = '.' := by simpa using hpc
    subst hc'
    have := pyFloat?_shape u ['.'] d2 hdU (.inr rfl) hdD (.inr hneD)
    simpa using this

theorem M_signedDigits_int (cs : List Char)
    (h : M (.seq (.rep (.cls (fun c => c = '+' || c = '-')) 0 (some 1) false)
      (.rep digit 1 none false)) cs) :
    ∃ v, pyInt? (String.mk cs) = some v := by
  obtain ⟨u, v, hcs, hMu, hMv⟩ := M_seq_inv h
  obtain ⟨hneV, hdV⟩ := M_digits hMv (le_refl 1)
  subst hcs
  rcases M_opt_inv hMu with hu | hu
  · subst hu
    exact pyInt?_shape [] v (.inl rfl) hneV hdV
  · obtain ⟨c, hc, hpc⟩ := M_cls_inv hu
    subst hc
    have hc' : c = '+' ∨ c = '-' := by simpa using hpc
    rcases hc' with h' | h' <;> subst h'
    · exact pyInt?_shape ['+'] v (.inr (.inl rfl)) hneV hdV
    · exact pyInt?_shape ['-'] v (.inr (.inr rfl)) hneV hdV

end Re

namespace TosTradeParser

open GmailDL Re

theorem grpsOf_expiryDayRE :
    grpsOf expiryDayRE = [(1, .rep digit 1 (some 2) false),
      (2, .rep upper 3 (some 3) false), (3, .rep digit 2 (some 2) false)] :=
  rfl

theorem grpsOf_weeklyRE :
    grpsOf weeklyRE = [(1, .seq (.rep upperCI 3 (some 3) false)
        (.seq (plus wsp) (.rep digit 2 (some 2) false))),
      (2, litCI "Thursday"), (3, digit)] := rfl

theorem grpsOf_strikeRE :
    grpsOf strikeRE = [(1, intFracRE),
      (2, .alt (lit "PUT") (lit "CALL"))] := rfl

theorem grpsOf_priceRE :
    grpsOf priceRE
      = [(1, .alt intFracRE (.seq (chr '.') (plus digit)))] := rfl

theorem grpsOf_markRE :
    grpsOf markRE
      = [(1, .seq (star digit) (.seq (opt (chr '.')) (plus digit)))] := rfl

theorem grpsOf_implVolRE : grpsOf implVolRE = [(1, intFracRE)] := rfl

theorem expiryAStage_total (s : List Char) : ∃ x, expiryAStage s = .ok x := by
  unfold expiryAStage
  cases hS : search expiryDayRE s with
  | none => exact ⟨none, rfl⟩
  | some trip =>
    obtain ⟨pre, caps, rest⟩ := trip
    have hwf : wfRE expiryDayRE = true := by decide
    obtain ⟨d1, hc1⟩ :=
      search_capOf_mustCap expiryDayRE s hwf pre caps rest hS 1 (by decide)
    obtain ⟨d2, hc2⟩ :=
      search_capOf_mustCap expiryDayRE s hwf pre caps rest hS 2 (by decide)
    obtain ⟨d3, hc3⟩ :=
      search_capOf_mustCap expiryDayRE s hwf pre caps rest hS 3 (by decide)
    obtain ⟨a1, ha1, hM1⟩ :=
      search_capOf_shape expiryDayRE s hwf pre caps rest hS 1 (by decide) d1 hc1
    rw [grpsOf_expiryDayRE] at ha1
    simp at ha1
    subst ha1
    obtain ⟨a3, ha3, hM3⟩ :=
      search_capOf_shape expiryDayRE s hwf pre caps rest hS 3 (by decide) d3 hc3
    rw [grpsOf_expiryDayRE] at ha3
    simp at ha3
    subst ha3
    obtain ⟨hne1, hd1⟩ := M_digits hM1 (by omega)
    obtain ⟨hne3, hd3⟩ := M_digits hM3 (by omega)
    obtain ⟨v1, hv1⟩ := pyInt?_digits_some d1 hne1 hd1
    obtain ⟨v3, hv3⟩ := pyInt?_digits_some d3 hne3 hd3
    simp only [hc1, hc2, hc3, hv1, hv3]
    cases hml : monthsLookup (String.mk (d2.map Char.toUpper)) with
    | some mn => exact ⟨_, rfl⟩
    | none => exact ⟨none, rfl⟩

theorem parse_weekly_expiry_total (g1 g3 : List Char) (hint : Option String)
    (hM1 : M (.seq (.rep upperCI 3 (some 3) false)
      (.seq (plus wsp) (.rep digit 2 (some 2) false))) g1)
    (hM3 : M digit g3) :
    ∃ x, parse_weekly_expiry (String.mk g1) (String.mk g3) hint = .ok x := by
  obtain ⟨a, vv, hg1, hMa, hMrest⟩ := M_seq_inv hM1
  obtain ⟨w, d, hv, hMw, hMd⟩ := M_seq_inv hMrest
  obtain ⟨hallA, hlenA, _⟩ := M_repCls_inv hMa
    (fun c => (65 ≤ c.toNat && c.toNat ≤ 90)
      || (97 ≤ c.toNat && c.toNat ≤ 122)) 3 (some 3) false rfl
  obtain ⟨hallW, hlenW, _⟩ := M_repCls_inv hMw isPyWhite 1 none false rfl
  obtain ⟨hneD, hallD⟩ := M_digits hMd (by omega)
  have haNe : a ≠ [] := by
    intro h
    subst h
    simp only [List.length_nil] at hlenA
    omega
  have hwNe : w ≠ [] := by
    intro h
    subst h
    simp only [List.length_nil] at hlenW
    omega
  have hAnw : ∀ c ∈ a, isPyWhite c = false := by
    intro c hc
    have := hallA c hc
    simp only [Bool.or_eq_true, Bool.and_eq_true, decide_eq_true_eq] at this
    exact isPyWhite_false_of_ge c (by omega)
  have hDnw : ∀ c ∈ d, isPyWhite c = false := by
    intro c hc
    have := hallD c hc
    simp only [isDigitChar, Bool.and_eq_true, decide_eq_true_eq] at this
    exact isPyWhite_false_of_ge c (by omega)
  have hsplit := wordsOf_pair a w d haNe hneD hwNe hAnw hallW hDnw
  rw [List.append_assoc] at hsplit
  subst hv
  subst hg1
  obtain ⟨vy, hvy⟩ := pyInt?_digits_some d hneD hallD
  obtain ⟨c3, hc3, hp3⟩ := M_cls_inv hM3
  have hne3 : g3 ≠ [] := by rw [hc3]; simp
  have hall3 : ∀ c ∈ g3, isDigitChar c = true := by
    intro c hc
    rw [hc3] at hc
    rcases List.mem_singleton.mp hc with h
    rw [h]
    exact hp3
  obtain ⟨vw, hvw⟩ := pyInt?_digits_some g3 hne3 hall3
  unfold parse_weekly_expiry
  simp only [hsplit]
  cases hml : monthsLookup (String.mk (a.map Char.toUpper)) with
  | none => exact ⟨none, rfl⟩
  | some month =>
    simp only [hvy, hvw]
    exact ⟨_, rfl⟩

theorem expiryBStage_total (expA : Option (Nat × Nat × Nat)) (s : List Char) :
    ∃ x, expiryBStage expA s = .ok x := by
  unfold expiryBStage
  cases expA with
  | some e => exact ⟨some e, rfl⟩
  | none =>
    cases hS : search weeklyRE s with
    | none => exact ⟨none, rfl⟩
    | some trip =>
      obtain ⟨pre, caps, rest⟩ := trip
      have hwf : wfRE weeklyRE = true := by decide
      obtain ⟨g1, hc1⟩ :=
        search_capOf_mustCap weeklyRE s hwf pre caps rest hS 1 (by decide)
      obtain ⟨g3, hc3⟩ :=
        search_capOf_mustCap weeklyRE s hwf pre caps rest hS 3 (by decide)
      obtain ⟨a1, ha1, hM1⟩ :=
        search_capOf_shape weeklyRE s hwf pre caps rest hS 1 (by decide) g1 hc1
      rw [grpsOf_weeklyRE] at ha1
      simp at ha1
      subst ha1
      obtain ⟨a3, ha3, hM3⟩ :=
        search_capOf_shape weeklyRE s hwf pre caps rest hS 3 (by decide) g3 hc3
      rw [grpsOf_weeklyRE] at ha3
      simp at ha3
      subst ha3
      obtain ⟨x, hx⟩ := parse_weekly_expiry_total g1 g3
        ((capOf caps 2).map String.mk) hM1 hM3
      simp only [hc1, hc3]
      exact ⟨x, hx⟩

theorem strikeStage_total (o : ParsedFill) (s : List Char) :
    ∃ r, strikeStage o s = .ok r := by
  unfold strikeStage
  cases hS : search strikeRE s with
  | none => exact ⟨o, rfl⟩
  | some trip =>
    obtain ⟨pre, caps, rest⟩ := trip
    have hwf : wfRE strikeRE = true := by decide
    obtain ⟨g1, hc1⟩ :=
      search_capOf_mustCap strikeRE s hwf pre caps rest hS 1 (by decide)
    obtain ⟨a1, ha1, hM1⟩ :=
      search_capOf_shape strikeRE s hwf pre caps rest hS 1 (by decide) g1 hc1
    rw [grpsOf_strikeRE] at ha1
    simp at ha1
    subst ha1
    obtain ⟨v, hv⟩ := M_intFrac_float g1 hM1
    simp only [hc1, hv]
    exact ⟨_, rfl⟩

theorem priceStage_total (o : ParsedFill) (s : List Char) :
    ∃ r, priceStage o s = .ok r := by
  unfold priceStage
  cases hS : search priceRE s with
  | none => exact ⟨o, rfl⟩
  | some trip =>
    obtain ⟨pre, caps, rest⟩ := trip
    have hwf : wfRE priceRE = true := by decide
    obtain ⟨g1, hc1⟩ :=
      search_capOf_mustCap priceRE s hwf pre caps rest hS 1 (by decide)
    obtain ⟨a1, ha1, hM1⟩ :=
      search_capOf_shape priceRE s hwf pre caps rest hS 1 (by decide) g1 hc1
    rw [grpsOf_priceRE] at ha1
    simp at ha1
    subst ha1
    have hv : ∃ v, pyFloat? (String.mk g1) = some v := by
      rcases M_alt_inv hM1 with h | h
      · exact M_intFrac_float g1 h
      · exact M_dotNum_float g1 h
    obtain ⟨v, hv⟩ := hv
    simp only [hc1, hv]
    exact ⟨_, rfl⟩

theorem markStage_total (o : ParsedFill) (s : List Char) :
    ∃ r, markStage o s = .ok r := by
  unfold markStage
  cases hS : search markRE s with
  | none => exact ⟨o, rfl⟩
  | some trip =>
    obtain ⟨pre, caps, rest⟩ := trip
    have hwf : wfRE markRE = true := by decide
    obtain ⟨g1, hc1⟩ :=
      search_capOf_mustCap markRE s hwf pre caps rest hS 1 (by decide)
    obtain ⟨a1, ha1, hM1⟩ :=
      search_capOf_shape markRE s hwf pre caps rest hS 1 (by decide) g1 hc1
    rw [grpsOf_markRE] at ha1
    simp at ha1
    subst ha1
    obtain ⟨v, hv⟩ := M_markNum_float g1 hM1
    simp only [hc1, hv]
    exact ⟨_, rfl⟩

theorem ivStage_total (o : ParsedFill) (s : List Char) :
    ∃ r, ivStage o s = .ok r := by
  unfold ivStage
  cases hS : search implVolRE s with
  | none => exact ⟨o, rfl⟩
  | some trip =>
    obtain ⟨pre, caps, rest⟩ := trip
    have hwf : wfRE implVolRE = true := by decide
    obtain ⟨g1, hc1⟩ :=
      search_capOf_mustCap implVolRE s hwf pre caps rest hS 1 (by decide)
    obtain ⟨a1, ha1, hM1⟩ :=
      search_capOf_shape implVolRE s hwf pre caps rest hS 1 (by decide) g1 hc1
    rw [grpsOf_implVolRE] at ha1
    simp at ha1
    subst ha1
    obtain ⟨v, hv⟩ := M_intFrac_float g1 hM1
    simp only [hc1, hv]
    exact ⟨_, rfl⟩

theorem stageAfterQty_total (out0 : ParsedFill) (s : List Char) :
    ∃ r, stageAfterQty out0 s = .ok r := by
  obtain ⟨xA, hA⟩ := expiryAStage_total s
  obtain ⟨xB, hB⟩ := expiryBStage_total xA s
  obtain ⟨x3, h3⟩ :=
    strikeStage_total { symbolStage out0 s with expiry_date := xB } s
  obtain ⟨x4, h4⟩ := priceStage_total x3 s
  obtain ⟨x5, h5⟩ := markStage_total x4 s
  obtain ⟨x6, h6⟩ := ivStage_total x5 s
  refine ⟨{ accountStage x6 s with
    parse_ok := coreOk (accountStage x6 s) }, ?_⟩
  unfold stageAfterQty
  simp only [bind, Except.bind, hA, hB, h3, h4, h5, h6, pure, Except.pure]

theorem afterTid_total (out1 : ParsedFill) (s : List Char) :
    ∃ r, afterTid out1 s = .ok r := by
  unfold afterTid
  cases hS : search sideQtyRE s with
  | none => exact ⟨out1, rfl⟩
  | some trip =>
    obtain ⟨pre, caps, rest⟩ := trip
    have hwf : wfRE sideQtyRE = true := by decide
    obtain ⟨cs1, hc1⟩ :=
      search_capOf_mustCap sideQtyRE s hwf pre caps rest hS 1 (by decide)
    obtain ⟨cs2, hc2⟩ :=
      search_capOf_mustCap sideQtyRE s hwf pre caps rest hS 2 (by decide)
    simp only [hc1, hc2]
    cases sideMapLookup (String.mk cs1) with
    | none => exact ⟨out1, rfl⟩
    | some side =>
      cases pyInt? (String.mk cs2) with
      | none => exact ⟨out1, rfl⟩
      | some q => exact stageAfterQty_total _ s

theorem parse_trade_subject_total (subject : String) :
    ∃ r, parse_trade_subject subject = .ok r := by
  unfold parse_trade_subject
  exact afterTid_total _ _

end TosTradeParser

namespace SubjectParser

open GmailDL Re

theorem grpsOf_EQUITY :
    grpsOf EQUITY_RE = [(1, plus digit), (2, .alt (lit "BOT") (lit "SOLD")),
      (3, .seq (opt (.cls (fun c => c = '+' || c = '-'))) (plus digit)),
      (4, plus upper), (5, plus digit), (6, .rep digit 1 (some 2) false),
      (7, .rep upper 3 (some 3) false), (8, .rep digit 2 (some 2) false),
      (9, numRE), (10, .alt (lit "PUT") (lit "CALL")), (11, numRE),
      (12, numRE), (13, numRE), (14, .rep dot 1 none true)] := rfl

theorem grpsOf_FUT :
    grpsOf FUT_OPT_RE = [(1, plus digit),
      (2, .alt (lit "BOT") (lit "SOLD")),
      (3, .seq (opt (.cls (fun c => c = '+' || c = '-'))) (plus digit)),
      (4, cat [chr '/', .rep upper 1 (some 3) false,
        .cls (fun c => "FGHJKMNQUVXZ".data.contains c),
        .rep digit 2 (some 2) false]),
      (5, cat [plus digit, chr '/', plus digit]),
      (6, .rep upper 3 (some 3) false), (7, .rep digit 2 (some 2) false),
      (8, .seq (chr '/') (plus upperDigit)), (9, numRE),
      (10, .alt (lit "PUT") (lit "CALL")), (11, numRE), (12, numRE),
      (13, numRE), (14, .rep dot 1 none true)] := rfl

theorem fromEquityCaps_total (caps : Caps) (cs2 cs3 : List Char) (v : ℤ)
    (hc2 : capOf caps 2 = some cs2) (hc3 : capOf caps 3 = some cs3)
    (hv : pyInt? (String.mk cs3) = some v) :
    ∃ r, fromEquityCaps caps = .ok r := by
  unfold fromEquityCaps
  simp only [hc2, hc3, hv]
  exact ⟨_, rfl⟩

theorem fromFutCaps_total (caps : Caps) (cs2 cs3 : List Char) (v : ℤ)
    (hc2 : capOf caps 2 = some cs2) (hc3 : capOf caps 3 = some cs3)
    (hv : pyInt? (String.mk cs3) = some v) :
    ∃ r, fromFutCaps caps = .ok r := by
  unfold fromFutCaps
  simp only [hc2, hc3, hv]
  exact ⟨_, rfl⟩

theorem parse_trade_subject_always_ok (subject : String) :
    ∃ r, parse_trade_subject subject = .ok r := by
  unfold parse_trade_subject
  cases hE : firstMatch
      (fuelFor (TosTradeParser.stripBy Char.isWhitespace subject.data))
      EQUITY_RE (TosTradeParser.stripBy Char.isWhitespace subject.data)
      none with
  | some trip =>
    obtain ⟨mrest, mlc, caps⟩ := trip
    have hwf : wfRE EQUITY_RE = true := by decide
    obtain ⟨cs2, hc2⟩ :=
      firstMatch_capOf_mustCap _ _ _ _ _ _ _ hwf hE 2 (by decide)
    obtain ⟨cs3, hc3⟩ :=
      firstMatch_capOf_mustCap _ _ _ _ _ _ _ hwf hE 3 (by decide)
    obtain ⟨a3, ha3, hM3⟩ :=
      firstMatch_capOf_shape _ _ _ _ _ _ _ hwf hE 3 cs3 hc3
    rw [grpsOf_EQUITY] at ha3
    simp at ha3
    subst ha3
    obtain ⟨v, hv⟩ := M_signedDigits_int cs3 hM3
    simp only [hE]
    exact fromEquityCaps_total caps cs2 cs3 v hc2 hc3 hv
  | none =>
    cases hF : firstMatch
        (fuelFor (TosTradeParser.stripBy Char.isWhitespace subject.data))
        FUT_OPT_RE (TosTradeParser.stripBy Char.isWhitespace subject.data)
        none with
    | some trip =>
      obtain ⟨mrest, mlc, caps⟩ := trip
      have hwf : wfRE FUT_OPT_RE = true := by decide
      obtain ⟨cs2, hc2⟩ :=
        firstMatch_capOf_mustCap _ _ _ _ _ _ _ hwf hF 2 (by decide)
      obtain ⟨cs3, hc3⟩ :=
        firstMatch_capOf_mustCap _ _ _ _ _ _ _ hwf hF 3 (by decide)
      obtain ⟨a3, ha3, hM3⟩ :=
        firstMatch_capOf_shape _ _ _ _ _ _ _ hwf hF 3 cs3 hc3
      rw [grpsOf_FUT] at ha3
      simp at ha3
      subst ha3
      obtain ⟨v, hv⟩ := M_signedDigits_int cs3 hM3
      simp only [hE, hF]
      exact fromFutCaps_total caps cs2 cs3 v hc2 hc3 hv
    | none =>
      simp only [hE, hF]
      exact ⟨emptyParsed, rfl⟩

end SubjectParser

namespace Claims

/-- C6: on every input subject string — empty or malformed included —
each of the two cited parser implementations returns exactly one parsed
record and never raises: every unprotected `int()`/`float()` call and
every `m.group(...)` access is reachable only with regex-shaped text that
cannot make it throw, so the embedded parsers (in which `Except.error`
models an uncaught exception) always return `.ok`; failures surface only
as `parse_ok = false` in the returned record. -/
theorem C6_no_raise :
    (∀ s : String, ∃ r, TosTradeParser.parse_trade_subject s = .ok r) ∧
    (∀ s : String, ∃ r, SubjectParser.parse_trade_subject s = .ok r) :=
  ⟨TosTradeParser.parse_trade_subject_total,
   SubjectParser.parse_trade_subject_always_ok⟩

/-- Witness for C6: both parsers return a record on the empty subject. -/
theorem C6_witness :
    (∃ r, TosTradeParser.parse_trade_subject "" = .ok r) ∧
    (∃ r, SubjectParser.parse_trade_subject "" = .ok r) :=
  ⟨C6_no_raise.1 "", C6_no_raise.2 ""⟩

end Claims
